import Mathlib

/-!
Verification of the Kalata `Mint` contract (Collateralized Debt Positions).

This file is a shallow embedding of `contracts/Mint.sol` (the Solidity
source): `uint256` values become `Nat` with explicit overflow / underflow /
division-by-zero checks matching SafeMath, reverts become the `Except`
error monad, storage mappings become total functions with a zero default,
and storage arrays become `List`s.  External collaborators (oracle, ERC20 /
BEP20 tokens, the clock) are an explicit environment `Env`.
-/

namespace Kalata

/-- Account / token identities (`address`); `0` is the zero address. -/
abbrev Addr := Nat

/-- Revert reasons.  Each constructor corresponds to one `require` (or
arithmetic panic) in the source. -/
inductive MintErr where
  | overflow
  | underflow
  | divByZero
  | outOfBounds
  | invalidAddress
  | wrongCollateral
  | wrongAsset
  | transferFailed
  | notRegistered
  | alreadyRegistered
  | deprecated
  | invalidMinRatio
  | lowRatio
  | amountTooSmall
  | zeroPrice
  | stalePrice
  | unauthorized
  | invalidPositionIndex
  | withdrawTooMuch
  | belowMinRatio
  | nothingToClose
  | positionSafe
  | feeRateZero
  | invalidDiscount
  | invalidMinCollateralRatio
  deriving DecidableEq, Repr

/-- Computations that may revert. -/
abbrev M (α : Type) := Except MintErr α

/-- Modelled from the spec: `SafeDecimalMath.unit()`, the fixed-point unit
(the library file `libraries/SafeDecimalMath.sol` is not among the source
files; the spec fixes the convention as fixed-point with truncation toward
zero on division, with a decimal unit). -/
def decUnit : Nat := 10 ^ 18

/-- One past the largest `uint256`. -/
def uMod : Nat := 2 ^ 256

/-- SafeMath `add`: reverts on wrap-around past `2^256`. -/
def uadd (x y : Nat) : M Nat :=
  if x + y < uMod then .ok (x + y) else .error .overflow

/-- SafeMath `sub`: reverts on underflow. -/
def usub (x y : Nat) : M Nat :=
  if y ≤ x then .ok (x - y) else .error .underflow

/-- SafeMath `mul`: reverts on wrap-around past `2^256`. -/
def umul (x y : Nat) : M Nat :=
  if x * y < uMod then .ok (x * y) else .error .overflow

/-- SafeMath `div`: reverts on a zero divisor, truncates toward zero. -/
def udiv (x y : Nat) : M Nat :=
  if y = 0 then .error .divByZero else .ok (x / y)

/-- Modelled from the spec: `SafeDecimalMath.multiplyDecimal x y =
x.mul(y).div(unit)` — fixed-point product with truncation. -/
def multiplyDecimal (x y : Nat) : M Nat :=
  match umul x y with
  | .error e => .error e
  | .ok p => udiv p decUnit

/-- Modelled from the spec: `SafeDecimalMath.divideDecimal x y =
x.mul(unit).div(y)` — fixed-point quotient with truncation; reverts when
`y = 0`. -/
def divideDecimal (x y : Nat) : M Nat :=
  match umul x decUnit with
  | .error e => .error e
  | .ok p => udiv p y

/-- Writing `l[i] := v` to a Solidity memory array: panics (reverts) when
`i` is out of bounds. -/
def setChecked {α : Type} (l : List α) (i : Nat) (v : α) : M (List α) :=
  if i < l.length then .ok (l.set i v) else .error .outOfBounds

/-- `struct AssetConfig`. -/
structure AssetConfig where
  token : Addr
  auctionDiscount : Nat
  minCollateralRatio : Nat
  endPrice : Nat
  deriving DecidableEq, Repr

/-- The zero-initialised `AssetConfig` (an absent mapping entry). -/
def AssetConfig.empty : AssetConfig := ⟨0, 0, 0, 0⟩

/-- `struct Position`. -/
structure Position where
  idx : Nat
  owner : Addr
  collateralToken : Addr
  collateralAmount : Nat
  assetToken : Addr
  assetAmount : Nat
  deriving DecidableEq, Repr

/-- The zero-initialised `Position` (an absent mapping entry). -/
def Position.empty : Position := ⟨0, 0, 0, 0, 0, 0⟩

/-- The external world: the oracle (price and last-updated time per asset),
the token transfer primitives (their boolean results), and the block
timestamp.  Token `mint` / `burn` have no observable result here. -/
structure Env where
  oraclePrice : Addr → Nat × Nat
  transferFromOk : Addr → Addr → Addr → Nat → Bool
  transferOk : Addr → Addr → Nat → Bool
  timestamp : Nat

/-- The address of the Mint contract itself (`address(this)`); only used as
the recipient of `transferFrom` pulls. -/
def thisAddr : Addr := 2 ^ 160 - 1

/-- The contract storage of `Mint`. -/
structure MintState where
  collector : Addr
  baseToken : Addr
  protocolFeeRate : Nat
  priceExpireTime : Nat
  assetConfigMap : Addr → AssetConfig
  assetTokenArray : List Addr
  idxPositionMap : Nat → Position
  postionIdxArray : List Nat
  currentpositionIndex : Nat
  ownerPositionIndex : Addr → Addr → Addr → Nat

/-- `readPrice`: the base token reports `(unit, 2^256 - 1)` without
consulting the oracle; other tokens delegate to `IOracle.queryPrice`. -/
def readPrice (env : Env) (s : MintState) (token : Addr) : Nat × Nat :=
  if s.baseToken = token then (decUnit, uMod - 1) else env.oraclePrice token

/-- `queryPrice(targetAssetToken, denominateAssetToken)`: relative price
with zero-price and staleness checks, in source order. -/
def queryPrice (env : Env) (s : MintState) (targetAssetToken denominateAssetToken : Addr) :
    M Nat :=
  let tokenPrice := (readPrice env s targetAssetToken).1
  let lastUpdatedTime := (readPrice env s targetAssetToken).2
  let denominateTokenPrice := (readPrice env s denominateAssetToken).1
  let denominateLastUpdatedTime := (readPrice env s denominateAssetToken).2
  if tokenPrice = 0 then .error .zeroPrice
  else if denominateTokenPrice = 0 then .error .zeroPrice
  else
    match divideDecimal tokenPrice denominateTokenPrice with
    | .error e => .error e
    | .ok relativePrice =>
      match usub env.timestamp s.priceExpireTime with
      | .error e => .error e
      | .ok requiredTime =>
        if requiredTime ≤ lastUpdatedTime ∧ requiredTime ≤ denominateLastUpdatedTime then
          .ok relativePrice
        else .error .stalePrice

/-- `isValidPostion` (sic): the contract's solvency check, comparing the
truncated ratio `collateralAmount / (assetAmount * assetPrice)` against the
asset's `minCollateralRatio`. -/
def isValidPostion (s : MintState) (position : Position) (assetPrice : Nat) : M Bool :=
  match multiplyDecimal position.assetAmount assetPrice with
  | .error e => .error e
  | .ok debtValue =>
    match divideDecimal position.collateralAmount debtValue with
    | .error e => .error e
    | .ok currentCollateralRatio =>
      .ok (decide ((s.assetConfigMap position.assetToken).minCollateralRatio ≤
        currentCollateralRatio))

/-- `saveAssetConfig`: append the token to the enumeration array when it is
not yet tracked (the source scans the array for an existing entry), then
overwrite the mapping entry. -/
def saveAssetConfig (s : MintState) (assetToken : Addr) (assetConfig : AssetConfig) :
    MintState :=
  let arr := if assetToken ∈ s.assetTokenArray then s.assetTokenArray
             else s.assetTokenArray ++ [assetToken]
  { s with assetTokenArray := arr,
           assetConfigMap := fun a => if a = assetToken then assetConfig else s.assetConfigMap a }

/-- `_saveAsset`: validates the discount and minimum ratio, then upserts the
config keeping the stored `endPrice`. -/
def saveAsset (s : MintState) (assetToken : Addr) (auctionDiscount minCollateralRatio : Nat) :
    M MintState :=
  if assetToken = 0 then .error .invalidAddress
  else if ¬ auctionDiscount ≤ decUnit then .error .invalidDiscount
  else if ¬ decUnit ≤ minCollateralRatio then .error .invalidMinCollateralRatio
  else
    let assetConfig := s.assetConfigMap assetToken
    let assetConfig := { assetConfig with
      auctionDiscount := auctionDiscount,
      minCollateralRatio := minCollateralRatio,
      token := assetToken }
    .ok (saveAssetConfig s assetToken assetConfig)

/-- `registerAsset`: fails when the stored config already has a nonzero
token identity. -/
def registerAsset (s : MintState) (assetToken : Addr) (auctionDiscount minCollateralRatio : Nat) :
    M MintState :=
  if (s.assetConfigMap assetToken).token = 0 then
    saveAsset s assetToken auctionDiscount minCollateralRatio
  else .error .alreadyRegistered

/-- `updateAsset`: unconditional upsert with the same validation. -/
def updateAsset (s : MintState) (assetToken : Addr) (auctionDiscount minCollateralRatio : Nat) :
    M MintState :=
  saveAsset s assetToken auctionDiscount minCollateralRatio

/-- `registerMigration`: records `endPrice` and freezes the minimum
collateral ratio at one fixed-point unit. -/
def registerMigration (s : MintState) (assetToken : Addr) (endPrice : Nat) : M MintState :=
  if assetToken = 0 then .error .invalidAddress
  else
    let assetConfig := s.assetConfigMap assetToken
    let assetConfig := { assetConfig with
      endPrice := endPrice, minCollateralRatio := decUnit }
    .ok (saveAssetConfig s assetToken assetConfig)

/-- `_updateConfig` / `updateConfig` (the factory and oracle addresses play
no role in the embedded logic and are dropped). -/
def updateConfig (s : MintState) (collector baseToken : Addr)
    (protocolFeeRate priceExpireTime : Nat) : MintState :=
  { s with collector := collector, baseToken := baseToken,
           protocolFeeRate := protocolFeeRate, priceExpireTime := priceExpireTime }

/-- `initialize`: sets the position counter to 1, requires
`protocolFeeRate ≤ unit`, and stores the config into empty storage. -/
def initializeMint (collector baseToken : Addr) (protocolFeeRate priceExpireTime : Nat) :
    M MintState :=
  if protocolFeeRate ≤ decUnit then
    .ok { collector := collector, baseToken := baseToken,
          protocolFeeRate := protocolFeeRate, priceExpireTime := priceExpireTime,
          assetConfigMap := fun _ => AssetConfig.empty,
          assetTokenArray := [],
          idxPositionMap := fun _ => Position.empty,
          postionIdxArray := [],
          currentpositionIndex := 1,
          ownerPositionIndex := fun _ _ _ => 0 }
  else .error .invalidMinRatio

/-- `savePosition`: append the index to the enumeration array when it is
not yet tracked (the source scans the array), then overwrite the mapping
entry. -/
def savePosition (s : MintState) (positionIndex : Nat) (position : Position) : MintState :=
  let arr := if positionIndex ∈ s.postionIdxArray then s.postionIdxArray
             else s.postionIdxArray ++ [positionIndex]
  { s with postionIdxArray := arr,
           idxPositionMap := fun i => if i = positionIndex then position else s.idxPositionMap i }

/-- The loop body of `removePosition` over the cached length: when slot `i`
holds the index, copy the last slot over it (unless it is the last slot)
and `delete` the last slot — Solidity `delete arr[length-1]` zeroes the
slot without shrinking the array. -/
def removeLoop (len positionIndex : Nat) : List Nat → List Nat → List Nat
  | [], arr => arr
  | i :: rest, arr =>
    if arr.getD i 0 = positionIndex then
      let arr1 := if i ≠ len - 1 then arr.set i (arr.getD (len - 1) 0) else arr
      removeLoop len positionIndex rest (arr1.set (len - 1) 0)
    else removeLoop len positionIndex rest arr

/-- The array part of `removePosition`. -/
def removePositionArray (arr : List Nat) (positionIndex : Nat) : List Nat :=
  removeLoop arr.length positionIndex (List.range arr.length) arr

/-- `removePosition`: deletes the mapping entry and runs the array loop. -/
def removePosition (s : MintState) (positionIndex : Nat) : MintState :=
  { s with
    idxPositionMap := fun i => if i = positionIndex then Position.empty else s.idxPositionMap i,
    postionIdxArray := removePositionArray s.postionIdxArray positionIndex }

/-- `openPosition`, in source order: address and amount checks, the
collateral `transferFrom` pull, then registration / migration / ratio
checks, the relative price, the mint amount, and the ledger insert. -/
def openPosition (env : Env) (s : MintState) (sender collateralToken : Addr)
    (collateralAmount : Nat) (assetToken : Addr) (collateralRatio : Nat) :
    M (MintState × Nat) :=
  if collateralToken = 0 then .error .invalidAddress
  else if assetToken = 0 then .error .invalidAddress
  else if ¬ 0 < collateralAmount then .error .wrongCollateral
  else if ¬ env.transferFromOk collateralToken sender thisAddr collateralAmount then
    .error .transferFailed
  else
    let assetConfig := s.assetConfigMap assetToken
    if ¬ assetConfig.token = assetToken then .error .notRegistered
    else if ¬ assetConfig.endPrice = 0 then .error .deprecated
    else if ¬ 0 < assetConfig.minCollateralRatio then .error .invalidMinRatio
    else if ¬ assetConfig.minCollateralRatio ≤ collateralRatio then .error .lowRatio
    else
      match queryPrice env s collateralToken assetToken with
      | .error e => .error e
      | .ok relativeCollateralPrice =>
        match multiplyDecimal collateralAmount relativeCollateralPrice with
        | .error e => .error e
        | .ok collateralValue =>
          match divideDecimal collateralValue collateralRatio with
          | .error e => .error e
          | .ok mintAmount =>
            if ¬ 0 < mintAmount then .error .amountTooSmall
            else
              let position : Position :=
                { idx := s.currentpositionIndex, owner := sender,
                  collateralToken := collateralToken, collateralAmount := collateralAmount,
                  assetToken := assetToken, assetAmount := mintAmount }
              let s1 := savePosition s position.idx position
              .ok ({ s1 with
                     currentpositionIndex := s1.currentpositionIndex + 1,
                     ownerPositionIndex := fun o c a =>
                       if o = sender ∧ c = collateralToken ∧ a = assetToken then position.idx
                       else s1.ownerPositionIndex o c a }, position.idx)

/-- `deposit`, in source order. -/
def deposit (env : Env) (s : MintState) (sender : Addr) (positionIndex : Nat)
    (collateralToken : Addr) (collateralAmount : Nat) : M MintState :=
  if collateralToken = 0 then .error .invalidAddress
  else if ¬ 0 < positionIndex then .error .invalidPositionIndex
  else
    let position := s.idxPositionMap positionIndex
    if ¬ position.owner = sender then .error .unauthorized
    else if ¬ (position.collateralToken = collateralToken ∧ collateralAmount ≠ 0) then
      .error .wrongCollateral
    else
      let assetConfig := s.assetConfigMap position.assetToken
      if ¬ assetConfig.endPrice = 0 then .error .deprecated
      else if ¬ env.transferFromOk collateralToken sender thisAddr collateralAmount then
        .error .transferFailed
      else
        match uadd position.collateralAmount collateralAmount with
        | .error e => .error e
        | .ok newCollateralAmount =>
          let position := { position with collateralAmount := newCollateralAmount }
          .ok (savePosition s positionIndex position)

/-- `withdraw`, in source order; note the `_protocolFeeRate > 0` check
after the ledger update and before the two transfers. -/
def withdraw (env : Env) (s : MintState) (sender : Addr) (positionIndex : Nat)
    (collateralToken : Addr) (withdrawAmount : Nat) : M MintState :=
  if collateralToken = 0 then .error .invalidAddress
  else
    let position := s.idxPositionMap positionIndex
    if ¬ position.owner = sender then .error .unauthorized
    else if ¬ (position.collateralToken = collateralToken ∧ withdrawAmount ≠ 0) then
      .error .wrongCollateral
    else if ¬ withdrawAmount ≤ position.collateralAmount then .error .withdrawTooMuch
    else
      let assetConfig := s.assetConfigMap position.assetToken
      match queryPrice env s position.collateralToken position.assetToken with
      | .error e => .error e
      | .ok relativeCollateralPrice =>
        let newCollateralAmount := position.collateralAmount - withdrawAmount
        match multiplyDecimal position.assetAmount relativeCollateralPrice with
        | .error e => .error e
        | .ok assetValueInCollateralAsset =>
          match multiplyDecimal assetValueInCollateralAsset assetConfig.minCollateralRatio with
          | .error e => .error e
          | .ok requiredCollateral =>
            if ¬ requiredCollateral ≤ newCollateralAmount then .error .belowMinRatio
            else
              let position := { position with collateralAmount := newCollateralAmount }
              let s1 :=
                if position.collateralAmount = 0 ∧ position.assetAmount = 0 then
                  removePosition s positionIndex
                else savePosition s positionIndex position
              if ¬ 0 < s.protocolFeeRate then .error .feeRateZero
              else
                match multiplyDecimal withdrawAmount s.protocolFeeRate with
                | .error e => .error e
                | .ok protocolFee =>
                  match usub withdrawAmount protocolFee with
                  | .error e => .error e
                  | .ok toSender =>
                    if ¬ env.transferOk collateralToken sender toSender then
                      .error .transferFailed
                    else if ¬ env.transferOk collateralToken s.collector protocolFee then
                      .error .transferFailed
                    else .ok s1

/-- `mint`, in source order. -/
def mint (env : Env) (s : MintState) (sender : Addr) (positionIndex : Nat)
    (assetToken : Addr) (assetAmount : Nat) : M MintState :=
  if assetToken = 0 then .error .invalidAddress
  else
    let position := s.idxPositionMap positionIndex
    if ¬ position.owner = sender then .error .unauthorized
    else if ¬ (assetToken = position.assetToken ∧ 0 < assetAmount) then .error .wrongAsset
    else
      let assetConfig := s.assetConfigMap position.assetToken
      if ¬ assetConfig.endPrice = 0 then .error .deprecated
      else
        match queryPrice env s position.collateralToken position.assetToken with
        | .error e => .error e
        | .ok relativeCollateralPrice =>
          match uadd assetAmount position.assetAmount with
          | .error e => .error e
          | .ok newAssetAmount =>
            match multiplyDecimal newAssetAmount relativeCollateralPrice with
            | .error e => .error e
            | .ok assetValueInCollateralAsset =>
              match multiplyDecimal assetValueInCollateralAsset
                  assetConfig.minCollateralRatio with
              | .error e => .error e
              | .ok requiredCollateral =>
                if ¬ requiredCollateral ≤ position.collateralAmount then
                  .error .belowMinRatio
                else
                  match uadd position.assetAmount assetAmount with
                  | .error e => .error e
                  | .ok grown =>
                    let position := { position with assetAmount := grown }
                    .ok (savePosition s positionIndex position)

/-- `closePosition`, in source order: the emptiness and ownership checks,
the asset pull and burn, the fee-carved collateral return, the removal,
and the explicit `delete` of the owner/pair secondary index entry. -/
def closePosition (env : Env) (s : MintState) (sender : Addr) (positionIndex : Nat) :
    M MintState :=
  let position := s.idxPositionMap positionIndex
  if ¬ (0 < position.assetAmount ∧ position.assetToken ≠ 0 ∧
      0 < position.collateralAmount) then .error .nothingToClose
  else if ¬ position.owner = sender then .error .unauthorized
  else if ¬ env.transferFromOk position.assetToken sender thisAddr position.assetAmount then
    .error .transferFailed
  else
    let withdrawAmount := position.collateralAmount
    match multiplyDecimal withdrawAmount s.protocolFeeRate with
    | .error e => .error e
    | .ok protocolFee =>
      match usub withdrawAmount protocolFee with
      | .error e => .error e
      | .ok toSender =>
        if ¬ env.transferOk position.collateralToken sender toSender then
          .error .transferFailed
        else if ¬ env.transferOk position.collateralToken s.collector protocolFee then
          .error .transferFailed
        else
          let s := removePosition s positionIndex
          .ok { s with ownerPositionIndex := fun o c a =>
            if o = sender ∧ c = position.collateralToken ∧ a = position.assetToken then 0
            else s.ownerPositionIndex o c a }

/-- The data of the `Auction` event. -/
structure AuctionResult where
  liquidateAssetAmount : Nat
  returnCollateralAmount : Nat
  protocolFee : Nat
  deriving DecidableEq, Repr

/-- `auction`, in source order.  The safety check uses the raw oracle price
of the position's asset (no base-token special case, no staleness or
zero-price guard); the residual-collateral transfer to the owner in the
`assetAmount = 0` branch ignores the token's boolean result. -/
def auction (env : Env) (s : MintState) (sender : Addr) (positionIndex : Nat)
    (liquidateAssetAmount : Nat) : M (MintState × AuctionResult) :=
  let position := s.idxPositionMap positionIndex
  let assetConfig := s.assetConfigMap position.assetToken
  let assetPrice := (env.oraclePrice position.assetToken).1
  match isValidPostion s position assetPrice with
  | .error e => .error e
  | .ok valid =>
    if valid then .error .positionSafe
    else
      match usub decUnit assetConfig.auctionDiscount with
      | .error e => .error e
      | .ok discountDenominator =>
        match divideDecimal assetPrice discountDenominator with
        | .error e => .error e
        | .ok discountedPrice =>
          match divideDecimal position.collateralAmount discountedPrice with
          | .error e => .error e
          | .ok maxLiquidateAssetAmount =>
            let liquidateAssetAmount :=
              if maxLiquidateAssetAmount < liquidateAssetAmount then maxLiquidateAssetAmount
              else liquidateAssetAmount
            let liquidateAssetAmount :=
              if position.assetAmount < liquidateAssetAmount then position.assetAmount
              else liquidateAssetAmount
            if ¬ env.transferFromOk position.assetToken sender thisAddr
                liquidateAssetAmount then .error .transferFailed
            else
              match multiplyDecimal liquidateAssetAmount discountedPrice with
              | .error e => .error e
              | .ok returnCollateralAmount =>
                match usub position.collateralAmount returnCollateralAmount with
                | .error e => .error e
                | .ok newCollateralAmount =>
                  match usub position.assetAmount liquidateAssetAmount with
                  | .error e => .error e
                  | .ok newAssetAmount =>
                    let position := { position with
                      collateralAmount := newCollateralAmount,
                      assetAmount := newAssetAmount }
                    let s1 :=
                      if position.collateralAmount = 0 then removePosition s positionIndex
                      else if position.assetAmount = 0 then
                        -- the boolean result of this transfer is discarded
                        let _ := env.transferOk position.collateralToken position.owner
                          position.collateralAmount
                        removePosition s positionIndex
                      else
                        { s with idxPositionMap := fun i =>
                            if i = positionIndex then position else s.idxPositionMap i }
                    match multiplyDecimal returnCollateralAmount s.protocolFeeRate with
                    | .error e => .error e
                    | .ok protocolFee =>
                      match usub returnCollateralAmount protocolFee with
                      | .error e => .error e
                      | .ok liquidatorAmount =>
                        if ¬ env.transferOk position.collateralToken s.collector
                            protocolFee then .error .transferFailed
                        else if ¬ env.transferOk position.collateralToken sender
                            liquidatorAmount then .error .transferFailed
                        else
                          .ok (s1, { liquidateAssetAmount := liquidateAssetAmount,
                                     returnCollateralAmount := liquidatorAmount,
                                     protocolFee := protocolFee })

/-- `queryPosition`: the stored position (zero-valued when absent). -/
def queryPosition (s : MintState) (positionIndex : Nat) : Position :=
  s.idxPositionMap positionIndex

/-- `queryPositionIndex`: the owner/pair secondary index. -/
def queryPositionIndex (s : MintState) (postionOwner collateralToken assetToken : Addr) : Nat :=
  s.ownerPositionIndex postionOwner collateralToken assetToken

/-- The shared write-matches-into-preallocated-arrays loop of
`queryAllPositions` / `queryPositions` (the six parallel output arrays are
one list of records here); writes are bounds-checked as in Solidity. -/
def queryFillLoop (m : Nat → Position) (keep : Position → Bool) :
    List Nat → List Position → Nat → M (List Position)
  | [], out, _ => .ok out
  | i :: rest, out, index =>
    let position := m i
    if keep position then
      match setChecked out index position with
      | .error e => .error e
      | .ok out1 => queryFillLoop m keep rest out1 (index + 1)
    else queryFillLoop m keep rest out index

/-- `queryAllPositions(owner)`: allocates arrays of the tracked length and
fills the matching prefix. -/
def queryAllPositions (s : MintState) (owner : Addr) : M (List Position) :=
  if owner = 0 then .error .invalidAddress
  else
    queryFillLoop s.idxPositionMap (fun p => decide (p.owner = owner))
      s.postionIdxArray (List.replicate s.postionIdxArray.length Position.empty) 0

/-- `queryPositions(owner, assetToken)` with the zero-address wildcards. -/
def queryPositions (s : MintState) (owner assetToken : Addr) : M (List Position) :=
  queryFillLoop s.idxPositionMap
    (fun p => decide ((p.owner = owner ∨ owner = 0) ∧ (p.assetToken = assetToken ∨ assetToken = 0)))
    s.postionIdxArray (List.replicate s.postionIdxArray.length Position.empty) 0

/-- The scan loop of `queryInvalidPositioins` (sic).  The output arrays were
allocated with length zero, so the first matching position makes the
bounds-checked write revert. -/
def queryInvalidLoop (s : MintState) (asset : Addr) (assetPrice : Nat) :
    List Nat → List Position → Nat → M (List Position)
  | [], out, _ => .ok out
  | i :: rest, out, index =>
    let position := s.idxPositionMap i
    if position.assetToken = asset then
      match isValidPostion s position assetPrice with
      | .error e => .error e
      | .ok valid =>
        if valid then queryInvalidLoop s asset assetPrice rest out index
        else
          match setChecked out index position with
          | .error e => .error e
          | .ok out1 => queryInvalidLoop s asset assetPrice rest out1 (index + 1)
    else queryInvalidLoop s asset assetPrice rest out index

/-- `queryInvalidPositioins(asset)`: allocates zero-length output arrays,
then scans only when the oracle price is nonzero. -/
def queryInvalidPositioins (env : Env) (s : MintState) (asset : Addr) : M (List Position) :=
  let out : List Position := []
  let assetPrice := (env.oraclePrice asset).1
  if 0 < assetPrice then queryInvalidLoop s asset assetPrice s.postionIdxArray out 0
  else .ok out

/-- Modelled from the spec: the shared solvency predicate of §4.4, for
comparison with the contract's `isValidPostion`.  A position is valid iff
`collateralAmount ≥ assetAmount * relativePrice * minCollateralRatio` with
`relativePrice = price(assetToken) / price(collateralToken)` in truncating
fixed point, where `price` is the `PriceOracleClient` (base-token special
case included); the computation fails with `ZeroPrice` when either leg's
value is zero and with `StalePrice` when either leg's `lastUpdated` is
older than `now - priceExpireTime`. -/
def specSolvencyValid (env : Env) (s : MintState) (position : Position) : M Bool :=
  let assetPrice := (readPrice env s position.assetToken).1
  let assetUpdated := (readPrice env s position.assetToken).2
  let collateralPrice := (readPrice env s position.collateralToken).1
  let collateralUpdated := (readPrice env s position.collateralToken).2
  if assetPrice = 0 ∨ collateralPrice = 0 then .error .zeroPrice
  else if assetUpdated < env.timestamp - s.priceExpireTime ∨
      collateralUpdated < env.timestamp - s.priceExpireTime then .error .stalePrice
  else
    let relativePrice := assetPrice * decUnit / collateralPrice
    let debtValue := position.assetAmount * relativePrice / decUnit
    let requiredCollateral :=
      debtValue * (s.assetConfigMap position.assetToken).minCollateralRatio / decUnit
    .ok (decide (requiredCollateral ≤ position.collateralAmount))

/-- Transaction semantics of a reverting call: an error leaves the chain
state unchanged. -/
def execState (s : MintState) (r : M MintState) : MintState :=
  match r with
  | .ok s1 => s1
  | .error _ => s

/-- Transaction semantics for the operations that also return a value. -/
def execStateFst {α : Type} (s : MintState) (r : M (MintState × α)) : MintState :=
  match r with
  | .ok p => p.1
  | .error _ => s

/-- One successful state-mutating call of the contract (any caller, any
arguments, any environment). -/
inductive Step : MintState → MintState → Prop where
  | stepOpen (env sender collateralToken collateralAmount assetToken collateralRatio out) :
      openPosition env s sender collateralToken collateralAmount assetToken collateralRatio
        = .ok out → Step s out.1
  | stepDeposit (env sender positionIndex collateralToken collateralAmount) :
      deposit env s sender positionIndex collateralToken collateralAmount = .ok s1 →
      Step s s1
  | stepWithdraw (env sender positionIndex collateralToken withdrawAmount) :
      withdraw env s sender positionIndex collateralToken withdrawAmount = .ok s1 →
      Step s s1
  | stepMint (env sender positionIndex assetToken assetAmount) :
      mint env s sender positionIndex assetToken assetAmount = .ok s1 → Step s s1
  | stepClose (env sender positionIndex) :
      closePosition env s sender positionIndex = .ok s1 → Step s s1
  | stepAuction (env sender positionIndex liquidateAssetAmount out) :
      auction env s sender positionIndex liquidateAssetAmount = .ok out → Step s out.1
  | stepRegisterAsset (assetToken auctionDiscount minCollateralRatio) :
      registerAsset s assetToken auctionDiscount minCollateralRatio = .ok s1 → Step s s1
  | stepUpdateAsset (assetToken auctionDiscount minCollateralRatio) :
      updateAsset s assetToken auctionDiscount minCollateralRatio = .ok s1 → Step s s1
  | stepRegisterMigration (assetToken endPrice) :
      registerMigration s assetToken endPrice = .ok s1 → Step s s1
  | stepUpdateConfig (collector baseToken protocolFeeRate priceExpireTime) :
      updateConfig s collector baseToken protocolFeeRate priceExpireTime = s1 → Step s s1

/-- Ledger states reachable from a freshly initialized contract. -/
def Reachable (s : MintState) : Prop :=
  ∃ collector baseToken protocolFeeRate priceExpireTime s0,
    initializeMint collector baseToken protocolFeeRate priceExpireTime = .ok s0 ∧
    Relation.ReflTransGen Step s0 s

/-- The ledger bookkeeping invariant that actually holds: the counter is at
least 1 and bounds every tracked index, slot 0 of the position map is
empty, and every nonzero index occurs in the enumeration array exactly once
if a position is stored under it and not at all otherwise.  (Zero sentinel
entries in the array are NOT excluded: `removePosition` leaves one behind
each time it removes the last slot's value.) -/
def LedgerInv (s : MintState) : Prop :=
  1 ≤ s.currentpositionIndex ∧
  s.idxPositionMap 0 = Position.empty ∧
  (∀ i, i ≠ 0 →
    s.postionIdxArray.count i = (if s.idxPositionMap i ≠ Position.empty then 1 else 0)) ∧
  (∀ i ∈ s.postionIdxArray, i < s.currentpositionIndex)

/-- A zero-valued fallback state, used only to peel `.ok` results of
concrete runs. -/
def emptyState : MintState :=
  { collector := 0, baseToken := 0, protocolFeeRate := 0, priceExpireTime := 0,
    assetConfigMap := fun _ => AssetConfig.empty, assetTokenArray := [],
    idxPositionMap := fun _ => Position.empty, postionIdxArray := [],
    currentpositionIndex := 0, ownerPositionIndex := fun _ _ _ => 0 }

/-- Peel a known-successful run. -/
def okOr {α : Type} (m : M α) (fallback : α) : α :=
  match m with
  | .ok a => a
  | .error _ => fallback

/-- A concrete benign environment: asset `9` is quoted at `2` units, last
updated at time `1000`, `now = 1000`; every token transfer succeeds. -/
def egEnv : Env :=
  { oraclePrice := fun a => if a = 9 then (2 * decUnit, 1000) else (0, 0),
    transferFromOk := fun _ _ _ _ => true,
    transferOk := fun _ _ _ => true,
    timestamp := 1000 }

/-- Fresh contract: collector `4`, base token `5`, fee rate `0`, price
expiry `50`. -/
def egS0 : MintState := okOr (initializeMint 4 5 0 50) emptyState

/-- Asset `9` registered with discount `0` and minimum ratio `2`. -/
def egS1 : MintState := okOr (registerAsset egS0 9 0 (2 * decUnit)) emptyState

/-- Account `7` opens a position: `4` units of base collateral at ratio
`2`; price of `9` is `2`, so `1` unit of asset `9` is minted at index 1. -/
def egOpen : MintState × Nat :=
  okOr (openPosition egEnv egS1 7 5 (4 * decUnit) 9 (2 * decUnit)) (emptyState, 0)

/-- The ledger after the open. -/
def egS2 : MintState := egOpen.1

/-- Account `7` closes position 1. -/
def egS3 : MintState := okOr (closePosition egEnv egS2 7 1) emptyState

/-- Asset `9` migrated at end price `3` (on the ledger holding position 1). -/
def egS4 : MintState := okOr (registerMigration egS2 9 (3 * decUnit)) emptyState

/-- `egEnv` much later: the oracle entry for asset `9` is unchanged
(`lastUpdated = 1000`) but `now = 5000`, far past the 50-second expiry. -/
def lateEnv : Env :=
  { oraclePrice := fun a => if a = 9 then (2 * decUnit, 1000) else (0, 0),
    transferFromOk := fun _ _ _ _ => true,
    transferOk := fun _ _ _ => true,
    timestamp := 5000 }

/-- Asset `9` quoted at `4` units (fresh): position 1 of `egS2` is unsafe
(ratio `1 < 2`). -/
def highEnv : Env :=
  { oraclePrice := fun a => if a = 9 then (4 * decUnit, 1000) else (0, 0),
    transferFromOk := fun _ _ _ _ => true,
    transferOk := fun _ _ _ => true,
    timestamp := 1000 }

/-- Asset `9` quoted at `3` units (fresh), and every token `transfer` whose
recipient is account `7` (the position owner) returns `false`; all other
transfers succeed. -/
def residualFailEnv : Env :=
  { oraclePrice := fun a => if a = 9 then (3 * decUnit, 1000) else (0, 0),
    transferFromOk := fun _ _ _ _ => true,
    transferOk := fun _ recipient _ => if recipient = 7 then false else true,
    timestamp := 1000 }

/-- Like `egEnv` but every `transferFrom` returns `false`. -/
def tfFalseEnv : Env :=
  { oraclePrice := fun a => if a = 9 then (2 * decUnit, 1000) else (0, 0),
    transferFromOk := fun _ _ _ _ => false,
    transferOk := fun _ _ _ => true,
    timestamp := 1000 }

/-- A full liquidation of position 1 at price `4`: account `3` requests `10`
units, capped to the full debt of `1`; all collateral is sold. -/
def egAuction : MintState × AuctionResult :=
  okOr (auction highEnv egS2 3 1 (10 * decUnit)) (emptyState, ⟨0, 0, 0⟩)

/-- The auction of position 1 at price `3` under `residualFailEnv`: the debt
is fully repaid, `1` unit of residual collateral is sent to the owner with
the result ignored. -/
def egResidualAuction : MintState × AuctionResult :=
  okOr (auction residualFailEnv egS2 3 1 decUnit) (emptyState, ⟨0, 0, 0⟩)

end Kalata

namespace Kalata

/-! Inversion helpers for the checked-arithmetic primitives. -/

lemma uadd_ok {x y z : Nat} (h : uadd x y = .ok z) : z = x + y := by
  unfold uadd at h; split at h <;> simp_all

lemma usub_ok {x y z : Nat} (h : usub x y = .ok z) : y ≤ x ∧ z = x - y := by
  unfold usub at h; split at h <;> simp_all

lemma usub_err {x y : Nat} {e : MintErr} (h : usub x y = .error e) : e = .underflow := by
  unfold usub at h
  split at h
  · exact Except.noConfusion h
  · cases h
    rfl

lemma uadd_err {x y : Nat} {e : MintErr} (h : uadd x y = .error e) : e = .overflow := by
  unfold uadd at h
  split at h
  · exact Except.noConfusion h
  · cases h
    rfl

lemma multiplyDecimal_ok {x y z : Nat} (h : multiplyDecimal x y = .ok z) :
    z = x * y / decUnit := by
  unfold multiplyDecimal umul udiv at h
  split at h
  · exact Except.noConfusion h
  next p heq =>
    split at heq
    · cases heq
      rw [if_neg (by decide : ¬ decUnit = 0)] at h
      cases h
      rfl
    · exact Except.noConfusion heq

lemma multiplyDecimal_err {x y : Nat} {e : MintErr} (h : multiplyDecimal x y = .error e) :
    e = .overflow := by
  unfold multiplyDecimal umul udiv at h
  split at h
  next e1 heq =>
    split at heq
    · exact Except.noConfusion heq
    · cases heq
      cases h
      rfl
  next p heq =>
    rw [if_neg (by decide : ¬ decUnit = 0)] at h
    exact Except.noConfusion h

lemma divideDecimal_ok {x y z : Nat} (h : divideDecimal x y = .ok z) :
    y ≠ 0 ∧ z = x * decUnit / y := by
  unfold divideDecimal umul udiv at h
  split at h
  · exact Except.noConfusion h
  next p heq =>
    split at heq
    · cases heq
      split at h
      · exact Except.noConfusion h
      · cases h
        exact ⟨by assumption, rfl⟩
    · exact Except.noConfusion heq

lemma divideDecimal_err {x y : Nat} {e : MintErr} (h : divideDecimal x y = .error e) :
    e = .overflow ∨ e = .divByZero := by
  unfold divideDecimal umul udiv at h
  split at h
  next e1 heq =>
    split at heq
    · exact Except.noConfusion heq
    · cases heq
      cases h
      exact .inl rfl
  next p heq =>
    split at h
    · cases h
      exact .inr rfl
    · exact Except.noConfusion h

lemma isValidPostion_no_positionSafe (s : MintState) (p : Position) (assetPrice : Nat) :
    isValidPostion s p assetPrice ≠ .error .positionSafe := by
  intro h
  unfold isValidPostion at h
  split at h
  next e1 heq =>
    cases h
    exact absurd (multiplyDecimal_err heq) (by simp)
  next p1 heq =>
    split at h
    next e2 heq2 =>
      cases h
      rcases divideDecimal_err heq2 with h' | h' <;> exact absurd h' (by simp)
    next q heq2 => exact Except.noConfusion h

end Kalata

namespace Kalata

/-! The claim theorems. -/

set_option maxHeartbeats 1000000 in
/-- C1 (amended): `auction` fails with `PositionSafe` iff the contract's
own check `isValidPostion` — the truncated ratio `collateralAmount /
(assetAmount * assetPrice)` at the RAW oracle price of the asset, with no
staleness or zero-price guard and no collateral-price leg — returns
`true`.  The `StalePrice` / `ZeroPrice` failures described by the spec
belong to `queryPrice`, which the auction path does not use: `queryPrice`
fails with `ZeroPrice` when either leg's value is zero, and with
`StalePrice` when a leg is older than `now - priceExpireTime` (given the
legs are nonzero, the product fits and the expiry is at most `now`). -/
theorem c1_auction_safety_raw_price :
    (∀ (env : Env) (s : MintState) (sender : Addr) (positionIndex liquidateAssetAmount : Nat),
        (auction env s sender positionIndex liquidateAssetAmount = .error .positionSafe ↔
         isValidPostion s (s.idxPositionMap positionIndex)
           (env.oraclePrice (s.idxPositionMap positionIndex).assetToken).1 = .ok true)) ∧
    (∀ (env : Env) (s : MintState) (targetAssetToken denominateAssetToken : Addr),
        ((readPrice env s targetAssetToken).1 = 0 ∨
         (readPrice env s denominateAssetToken).1 = 0) →
        queryPrice env s targetAssetToken denominateAssetToken = .error .zeroPrice) ∧
    (∀ (env : Env) (s : MintState) (targetAssetToken denominateAssetToken : Addr),
        (readPrice env s targetAssetToken).1 ≠ 0 →
        (readPrice env s denominateAssetToken).1 ≠ 0 →
        (readPrice env s targetAssetToken).1 * decUnit < uMod →
        s.priceExpireTime ≤ env.timestamp →
        ((readPrice env s targetAssetToken).2 < env.timestamp - s.priceExpireTime ∨
         (readPrice env s denominateAssetToken).2 < env.timestamp - s.priceExpireTime) →
        queryPrice env s targetAssetToken denominateAssetToken = .error .stalePrice) := by
  refine ⟨?_, ?_, ?_⟩
  · intro env s sender pi liq
    constructor
    · intro h
      unfold auction at h
      simp only [] at h
      cases hv : isValidPostion s (s.idxPositionMap pi)
          (env.oraclePrice (s.idxPositionMap pi).assetToken).1 with
      | error e =>
        rw [hv] at h
        cases h
        exact absurd hv (isValidPostion_no_positionSafe _ _ _)
      | ok valid =>
        rw [hv] at h
        cases valid
        · exfalso
          repeat' split at h
          all_goals simp_all
          all_goals try (rename usub _ _ = Except.error _ => hx
                         exact absurd (usub_err hx) (by simp))
          all_goals try (rename multiplyDecimal _ _ = Except.error _ => hx
                         exact absurd (multiplyDecimal_err hx) (by simp))
          all_goals (rename divideDecimal _ _ = Except.error _ => hx
                     rcases divideDecimal_err hx with h' | h' <;> exact absurd h' (by simp))
        · rfl
    · intro h
      unfold auction
      simp only []
      rw [h]
      rfl
  · intro env s t d hzero
    unfold queryPrice
    simp only []
    rcases hzero with h0 | h0
    · simp [h0]
    · by_cases ht : (readPrice env s t).1 = 0 <;> simp [ht, h0]
  · intro env s t d h1 h2 h3 h4 h5
    unfold queryPrice divideDecimal umul udiv usub
    simp only []
    have hnot : ¬(env.timestamp - s.priceExpireTime ≤ (readPrice env s t).2 ∧
        env.timestamp - s.priceExpireTime ≤ (readPrice env s d).2) := by omega
    simp [h1, h2, h3, h4, hnot]
    omega

set_option maxHeartbeats 2000000 in
set_option maxRecDepth 4000 in
/-- C2: for every successful `auction`, with `discountedPrice =
assetPrice / (1 - auctionDiscount)` the liquidated quantity equals
`min(requested, collateralAmount / discountedPrice, assetAmount)`; the
pre-fee collateral return equals `liquidated * discountedPrice` and never
exceeds the capped quantity times the discounted price; afterwards the
position is either removed or holds exactly `collateralAmount -
returnCollateral_prefee` and `assetAmount - liquidated`; the collector
receives the protocol fee and the liquidator the rest. -/
theorem c2_auction_caps_and_updates :
    ∀ (env : Env) (s : MintState) (sender : Addr) (positionIndex requestedLiquidateAmount : Nat)
      (out : MintState × AuctionResult),
      auction env s sender positionIndex requestedLiquidateAmount = .ok out →
      ∃ discountedPrice,
        divideDecimal (env.oraclePrice (s.idxPositionMap positionIndex).assetToken).1
          (decUnit - (s.assetConfigMap (s.idxPositionMap positionIndex).assetToken).auctionDiscount)
          = .ok discountedPrice ∧
        out.2.liquidateAssetAmount =
          min (min requestedLiquidateAmount
            ((s.idxPositionMap positionIndex).collateralAmount * decUnit / discountedPrice))
            (s.idxPositionMap positionIndex).assetAmount ∧
        out.2.liquidateAssetAmount * discountedPrice / decUnit ≤
          min (min requestedLiquidateAmount
            ((s.idxPositionMap positionIndex).collateralAmount * decUnit / discountedPrice))
            (s.idxPositionMap positionIndex).assetAmount * discountedPrice / decUnit ∧
        (out.1.idxPositionMap positionIndex = Position.empty ∨
         out.1.idxPositionMap positionIndex =
           { s.idxPositionMap positionIndex with
             collateralAmount := (s.idxPositionMap positionIndex).collateralAmount -
               out.2.liquidateAssetAmount * discountedPrice / decUnit,
             assetAmount := (s.idxPositionMap positionIndex).assetAmount -
               out.2.liquidateAssetAmount }) ∧
        out.2.protocolFee =
          out.2.liquidateAssetAmount * discountedPrice / decUnit * s.protocolFeeRate / decUnit ∧
        out.2.returnCollateralAmount =
          out.2.liquidateAssetAmount * discountedPrice / decUnit - out.2.protocolFee ∧
        env.transferOk (s.idxPositionMap positionIndex).collateralToken s.collector
          out.2.protocolFee = true ∧
        env.transferOk (s.idxPositionMap positionIndex).collateralToken sender
          out.2.returnCollateralAmount = true := by
  intro env s sender pi req out h
  unfold auction at h
  simp only [] at h
  cases hval : isValidPostion s (s.idxPositionMap pi)
      (env.oraclePrice (s.idxPositionMap pi).assetToken).1 with
  | error e => simp only [hval] at h; exact Except.noConfusion h
  | ok valid =>
  simp only [hval] at h
  cases valid
  case true => simp at h
  case false =>
  rw [if_neg (by simp)] at h
  cases hds : usub decUnit (s.assetConfigMap (s.idxPositionMap pi).assetToken).auctionDiscount with
  | error e => simp only [hds] at h; exact Except.noConfusion h
  | ok denomv =>
  simp only [hds] at h
  cases hdp : divideDecimal (env.oraclePrice (s.idxPositionMap pi).assetToken).1 denomv with
  | error e => simp only [hdp] at h; exact Except.noConfusion h
  | ok dpv =>
  simp only [hdp] at h
  cases hmax : divideDecimal (s.idxPositionMap pi).collateralAmount dpv with
  | error e => simp only [hmax] at h; exact Except.noConfusion h
  | ok maxv =>
  simp only [hmax] at h
  generalize hliq :
    (if (s.idxPositionMap pi).assetAmount < (if maxv < req then maxv else req) then
      (s.idxPositionMap pi).assetAmount else (if maxv < req then maxv else req)) = liqA at h
  split at h
  case isTrue => exact Except.noConfusion h
  case isFalse =>
  cases hrc : multiplyDecimal liqA dpv with
  | error e => simp only [hrc] at h; exact Except.noConfusion h
  | ok rcv =>
  simp only [hrc] at h
  cases hnc : usub (s.idxPositionMap pi).collateralAmount rcv with
  | error e => simp only [hnc] at h; exact Except.noConfusion h
  | ok ncv =>
  simp only [hnc] at h
  cases hna : usub (s.idxPositionMap pi).assetAmount liqA with
  | error e => simp only [hna] at h; exact Except.noConfusion h
  | ok nav =>
  simp only [hna] at h
  cases hfee : multiplyDecimal rcv s.protocolFeeRate with
  | error e => simp only [hfee] at h; exact Except.noConfusion h
  | ok feev =>
  simp only [hfee] at h
  cases hpf : usub rcv feev with
  | error e => simp only [hpf] at h; exact Except.noConfusion h
  | ok pfv =>
  simp only [hpf] at h
  split at h
  case isTrue => exact Except.noConfusion h
  case isFalse =>
  rename ¬¬_ => htc
  split at h
  case isTrue => exact Except.noConfusion h
  case isFalse =>
  rename ¬¬_ => hts
  rw [not_not] at htc hts
  cases h
  obtain ⟨hdsle, hdsv⟩ := usub_ok hds
  obtain ⟨hdp0, hdpv⟩ := divideDecimal_ok hdp
  obtain ⟨hmax0, hmaxv⟩ := divideDecimal_ok hmax
  obtain hrcv := multiplyDecimal_ok hrc
  obtain hfeev := multiplyDecimal_ok hfee
  obtain ⟨hncle, hncv⟩ := usub_ok hnc
  obtain ⟨hnale, hnav⟩ := usub_ok hna
  obtain ⟨hpfle, hpfv⟩ := usub_ok hpf
  subst hdsv
  have hmin : min (min req ((s.idxPositionMap pi).collateralAmount * decUnit / dpv))
      (s.idxPositionMap pi).assetAmount = liqA := by
    rw [← hmaxv, ← hliq]
    simp only [Nat.min_def]
    split_ifs <;> omega
  refine ⟨dpv, hdp, hmin.symm, ?_, ?_, ?_, ?_, htc, hts⟩
  · rw [hmin]
  · by_cases hc0 : ncv = 0
    · left
      simp [hc0, removePosition]
    · by_cases ha0 : nav = 0
      · left
        simp [hc0, ha0, removePosition]
      · right
        simp [hc0, ha0]
        rw [hncv, hnav, hrcv]
        exact ⟨rfl, rfl⟩
  · rw [hfeev, hrcv]
  · rw [hpfv, hrcv]

/-- C3 (amended): every operation is all-or-nothing in its committed
effects — any error reverts, leaving the ledger state unchanged — but
validation is NOT fully staged before external transfers: `openPosition`
initiates (and checks) the collateral `transferFrom` before the asset
registration, migration and ratio checks, so a failed pull reports
`TransferFailed` even for an unregistered asset. -/
theorem c3_revert_semantics_and_transfer_order :
    (∀ (env : Env) (s : MintState) (sender collateralToken : Addr) (collateralAmount : Nat)
        (assetToken : Addr) (collateralRatio : Nat) (e : MintErr),
        openPosition env s sender collateralToken collateralAmount assetToken collateralRatio
          = .error e →
        execStateFst s
          (openPosition env s sender collateralToken collateralAmount assetToken collateralRatio)
          = s) ∧
    (∀ (env : Env) (s : MintState) (sender : Addr) (positionIndex : Nat)
        (collateralToken : Addr) (collateralAmount : Nat) (e : MintErr),
        deposit env s sender positionIndex collateralToken collateralAmount = .error e →
        execState s (deposit env s sender positionIndex collateralToken collateralAmount) = s) ∧
    (∀ (env : Env) (s : MintState) (sender : Addr) (positionIndex : Nat)
        (collateralToken : Addr) (withdrawAmount : Nat) (e : MintErr),
        withdraw env s sender positionIndex collateralToken withdrawAmount = .error e →
        execState s (withdraw env s sender positionIndex collateralToken withdrawAmount) = s) ∧
    (∀ (env : Env) (s : MintState) (sender : Addr) (positionIndex : Nat)
        (assetToken : Addr) (assetAmount : Nat) (e : MintErr),
        mint env s sender positionIndex assetToken assetAmount = .error e →
        execState s (mint env s sender positionIndex assetToken assetAmount) = s) ∧
    (∀ (env : Env) (s : MintState) (sender : Addr) (positionIndex : Nat) (e : MintErr),
        closePosition env s sender positionIndex = .error e →
        execState s (closePosition env s sender positionIndex) = s) ∧
    (∀ (env : Env) (s : MintState) (sender : Addr) (positionIndex liquidateAssetAmount : Nat)
        (e : MintErr),
        auction env s sender positionIndex liquidateAssetAmount = .error e →
        execStateFst s (auction env s sender positionIndex liquidateAssetAmount) = s) ∧
    (∀ (env : Env) (s : MintState) (sender collateralToken : Addr) (collateralAmount : Nat)
        (assetToken : Addr) (collateralRatio : Nat),
        collateralToken ≠ 0 → assetToken ≠ 0 → 0 < collateralAmount →
        env.transferFromOk collateralToken sender thisAddr collateralAmount = false →
        openPosition env s sender collateralToken collateralAmount assetToken collateralRatio
          = .error .transferFailed) := by
  refine ⟨?_, ?_, ?_, ?_, ?_, ?_, ?_⟩
  · intro env s a b c d e err h; rw [h]; rfl
  · intro env s a b c d err h; rw [h]; rfl
  · intro env s a b c d err h; rw [h]; rfl
  · intro env s a b c d err h; rw [h]; rfl
  · intro env s a b err h; rw [h]; rfl
  · intro env s a b c err h; rw [h]; rfl
  · intro env s sender ct ca at_ r h1 h2 h3 h4
    unfold openPosition
    simp [h1, h2, h3, h4]

set_option maxHeartbeats 1000000 in
/-- C5: every successful `openPosition` mints
`floor(floor(collateralAmount * relativePrice / unit) * unit /
collateralRatio)` with `relativePrice = price(collateralToken) /
price(assetToken)` from `queryPrice`, fails when that amount is zero
(success implies it is positive), and stores the position at the returned
index — the fresh `currentpositionIndex` — with exactly the given owner,
tokens and amounts, retrievable via `queryPosition`. -/
theorem c5_openPosition_mint_formula :
    ∀ (env : Env) (s : MintState) (sender collateralToken : Addr) (collateralAmount : Nat)
      (assetToken : Addr) (collateralRatio : Nat) (out : MintState × Nat),
      openPosition env s sender collateralToken collateralAmount assetToken collateralRatio
        = .ok out →
      ∃ relativePrice,
        queryPrice env s collateralToken assetToken = .ok relativePrice ∧
        out.2 = s.currentpositionIndex ∧
        0 < collateralAmount * relativePrice / decUnit * decUnit / collateralRatio ∧
        queryPosition out.1 out.2 =
          { idx := out.2, owner := sender, collateralToken := collateralToken,
            collateralAmount := collateralAmount, assetToken := assetToken,
            assetAmount :=
              collateralAmount * relativePrice / decUnit * decUnit / collateralRatio } := by
  intro env s sender ct ca at_ r out h
  unfold openPosition at h
  simp only [] at h
  repeat' split at h
  all_goals try exact Except.noConfusion h
  rename ¬ _ = 0 => hpos
  rename multiplyDecimal _ _ = _ => hm
  rename divideDecimal _ _ = _ => hd
  rename queryPrice _ _ _ _ = _ => hq
  obtain hm' := multiplyDecimal_ok hm
  obtain ⟨hr0, hd'⟩ := divideDecimal_ok hd
  subst hm'
  subst hd'
  cases h
  refine ⟨_, hq, rfl, by omega, ?_⟩
  simp [queryPosition, savePosition]

/-- C6: `registerAsset` on an asset whose stored config already has a
nonzero token identity fails with `AlreadyRegistered`; `registerMigration`
sets the asset's `minCollateralRatio` to exactly one unit and records the
end price; and once `endPrice ≠ 0`, `openPosition`, `mint` and `deposit`
on that asset fail with `AssetDeprecated` (given their earlier checks
pass). -/
theorem c6_register_migrate_deprecate :
    (∀ (s : MintState) (assetToken : Addr) (auctionDiscount minCollateralRatio : Nat),
        (s.assetConfigMap assetToken).token ≠ 0 →
        registerAsset s assetToken auctionDiscount minCollateralRatio
          = .error .alreadyRegistered) ∧
    (∀ (s : MintState) (assetToken : Addr) (endPrice : Nat), assetToken ≠ 0 →
        ∃ s1, registerMigration s assetToken endPrice = .ok s1 ∧
          (s1.assetConfigMap assetToken).minCollateralRatio = decUnit ∧
          (s1.assetConfigMap assetToken).endPrice = endPrice) ∧
    (∀ (env : Env) (s : MintState) (sender collateralToken : Addr) (collateralAmount : Nat)
        (assetToken : Addr) (collateralRatio : Nat),
        (s.assetConfigMap assetToken).endPrice ≠ 0 →
        collateralToken ≠ 0 → assetToken ≠ 0 → 0 < collateralAmount →
        env.transferFromOk collateralToken sender thisAddr collateralAmount = true →
        (s.assetConfigMap assetToken).token = assetToken →
        openPosition env s sender collateralToken collateralAmount assetToken collateralRatio
          = .error .deprecated) ∧
    (∀ (env : Env) (s : MintState) (sender : Addr) (positionIndex assetAmount : Nat),
        (s.assetConfigMap (s.idxPositionMap positionIndex).assetToken).endPrice ≠ 0 →
        (s.idxPositionMap positionIndex).assetToken ≠ 0 →
        (s.idxPositionMap positionIndex).owner = sender → 0 < assetAmount →
        mint env s sender positionIndex (s.idxPositionMap positionIndex).assetToken assetAmount
          = .error .deprecated) ∧
    (∀ (env : Env) (s : MintState) (sender : Addr) (positionIndex collateralAmount : Nat),
        (s.assetConfigMap (s.idxPositionMap positionIndex).assetToken).endPrice ≠ 0 →
        (s.idxPositionMap positionIndex).collateralToken ≠ 0 →
        0 < positionIndex →
        (s.idxPositionMap positionIndex).owner = sender → collateralAmount ≠ 0 →
        deposit env s sender positionIndex (s.idxPositionMap positionIndex).collateralToken
          collateralAmount = .error .deprecated) := by
  refine ⟨?_, ?_, ?_, ?_, ?_⟩
  · intro s assetToken d m h
    unfold registerAsset
    simp [h]
  · intro s assetToken endPrice h
    refine ⟨saveAssetConfig s assetToken
        { s.assetConfigMap assetToken with endPrice := endPrice, minCollateralRatio := decUnit },
      ?_, ?_, ?_⟩
    · simp [registerMigration, h]
    · simp [saveAssetConfig]
    · simp [saveAssetConfig]
  · intro env s sender ct ca at_ r hend h1 h2 h3 h4 h5
    unfold openPosition
    simp [h1, h2, h3, h4, h5, hend]
  · intro env s sender positionIndex assetAmount hend h1 h2 h3
    unfold mint
    simp [h1, h2, h3, hend]
  · intro env s sender positionIndex collateralAmount hend h1 h2 h3 h4
    unfold deposit
    simp [h1, h2, h3, h4, hend]

set_option maxHeartbeats 1000000 in
/-- C7: `closePosition` succeeds only for the owner of a position with
positive debt and collateral; afterwards `queryPosition` returns the zero
position and the owner/pair secondary index entry is cleared (so it no
longer points to the index); `auction` never touches the secondary
index, even when it removes the position. -/
theorem c7_close_clears_secondary_auction_does_not :
    (∀ (env : Env) (s : MintState) (sender : Addr) (positionIndex : Nat) (s1 : MintState),
        closePosition env s sender positionIndex = .ok s1 →
        (s.idxPositionMap positionIndex).owner = sender ∧
        0 < (s.idxPositionMap positionIndex).assetAmount ∧
        0 < (s.idxPositionMap positionIndex).collateralAmount ∧
        queryPosition s1 positionIndex = Position.empty ∧
        queryPositionIndex s1 sender (s.idxPositionMap positionIndex).collateralToken
          (s.idxPositionMap positionIndex).assetToken = 0 ∧
        (positionIndex ≠ 0 →
          queryPositionIndex s1 sender (s.idxPositionMap positionIndex).collateralToken
            (s.idxPositionMap positionIndex).assetToken ≠ positionIndex)) ∧
    (∀ (env : Env) (s : MintState) (sender : Addr) (positionIndex liquidateAssetAmount : Nat)
        (out : MintState × AuctionResult),
        auction env s sender positionIndex liquidateAssetAmount = .ok out →
        ∀ o c a, queryPositionIndex out.1 o c a = queryPositionIndex s o c a) := by
  constructor
  · intro env s sender pi s1 h
    unfold closePosition at h
    simp only [] at h
    repeat' split at h
    all_goals try exact Except.noConfusion h
    rename ¬¬(0 < _ ∧ _) => hcond
    rename ¬¬(_ = sender) => hown
    rw [not_not] at hcond hown
    cases h
    refine ⟨hown, hcond.1, hcond.2.2, ?_, ?_, ?_⟩
    · simp [queryPosition, removePosition]
    · simp [queryPositionIndex]
    · intro hpi
      simp [queryPositionIndex]
      omega
  · intro env s sender pi liq out h
    unfold auction at h
    simp only [] at h
    repeat' split at h
    all_goals try exact Except.noConfusion h
    all_goals cases h
    all_goals intro o c a
    all_goals simp [queryPositionIndex, removePosition]

/-- C10: if the configured `protocolFeeRate` is zero (which `initialize`
permits, requiring only `protocolFeeRate ≤ 1`), every `withdraw` call
reverts regardless of the position, its owner, or its solvency, so no
collateral can ever be withdrawn through `withdraw` while the fee rate is
zero. -/
theorem c10_withdraw_reverts_when_fee_rate_zero :
    (∀ (env : Env) (s : MintState) (sender : Addr) (positionIndex : Nat)
        (collateralToken : Addr) (withdrawAmount : Nat) (s1 : MintState),
        s.protocolFeeRate = 0 →
        withdraw env s sender positionIndex collateralToken withdrawAmount ≠ .ok s1) ∧
    (∀ (collector baseToken : Addr) (priceExpireTime : Nat),
        ∃ s0, initializeMint collector baseToken 0 priceExpireTime = .ok s0) := by
  constructor
  · intro env s sender positionIndex collateralToken withdrawAmount s1 hfee heq
    unfold withdraw at heq
    simp only [hfee] at heq
    repeat' split at heq
    all_goals simp_all
  · intro collector baseToken priceExpireTime
    exact ⟨_, rfl⟩

end Kalata

namespace Kalata

/-! Witnesses, counterexamples and the code-bug evaluations. -/

theorem c1_witness :
    (auction lateEnv egS2 3 1 decUnit = .error .positionSafe ↔
      isValidPostion egS2 (egS2.idxPositionMap 1)
        (lateEnv.oraclePrice (egS2.idxPositionMap 1).assetToken).1 = .ok true) ∧
    queryPrice egEnv egS1 6 9 = .error .zeroPrice ∧
    queryPrice lateEnv egS2 9 5 = .error .stalePrice :=
  ⟨c1_auction_safety_raw_price.1 lateEnv egS2 3 1 decUnit,
   c1_auction_safety_raw_price.2.1 egEnv egS1 6 9 (Or.inl (by decide)),
   c1_auction_safety_raw_price.2.2 lateEnv egS2 9 5 (by decide) (by decide) (by decide)
     (by decide) (Or.inl (by decide))⟩

/-- C1 counterexample: at a stale oracle entry (`lastUpdated = 1000`,
`now = 5000`, expiry `50`) the code's auction still fails with
`PositionSafe`, while the spec's solvency predicate (via the price adapter
with staleness checking) fails with `StalePrice` — so `auction` does not
fail with `PositionSafe` iff the position is valid per the spec's
predicate, and the predicate's price legs are not staleness-checked on the
auction path. -/
theorem c1_counterexample :
    auction lateEnv egS2 3 1 decUnit = .error .positionSafe ∧
    specSolvencyValid lateEnv egS2 (queryPosition egS2 1) = .error .stalePrice :=
  ⟨rfl, rfl⟩

theorem c2_witness :
    ∃ discountedPrice,
      divideDecimal (highEnv.oraclePrice (egS2.idxPositionMap 1).assetToken).1
        (decUnit - (egS2.assetConfigMap (egS2.idxPositionMap 1).assetToken).auctionDiscount)
        = .ok discountedPrice ∧
      egAuction.2.liquidateAssetAmount =
        min (min (10 * decUnit)
          ((egS2.idxPositionMap 1).collateralAmount * decUnit / discountedPrice))
          (egS2.idxPositionMap 1).assetAmount ∧
      egAuction.2.liquidateAssetAmount * discountedPrice / decUnit ≤
        min (min (10 * decUnit)
          ((egS2.idxPositionMap 1).collateralAmount * decUnit / discountedPrice))
          (egS2.idxPositionMap 1).assetAmount * discountedPrice / decUnit ∧
      (egAuction.1.idxPositionMap 1 = Position.empty ∨
       egAuction.1.idxPositionMap 1 =
         { egS2.idxPositionMap 1 with
           collateralAmount := (egS2.idxPositionMap 1).collateralAmount -
             egAuction.2.liquidateAssetAmount * discountedPrice / decUnit,
           assetAmount := (egS2.idxPositionMap 1).assetAmount -
             egAuction.2.liquidateAssetAmount }) ∧
      egAuction.2.protocolFee =
        egAuction.2.liquidateAssetAmount * discountedPrice / decUnit *
          egS2.protocolFeeRate / decUnit ∧
      egAuction.2.returnCollateralAmount =
        egAuction.2.liquidateAssetAmount * discountedPrice / decUnit -
          egAuction.2.protocolFee ∧
      highEnv.transferOk (egS2.idxPositionMap 1).collateralToken egS2.collector
        egAuction.2.protocolFee = true ∧
      highEnv.transferOk (egS2.idxPositionMap 1).collateralToken 3
        egAuction.2.returnCollateralAmount = true :=
  c2_auction_caps_and_updates highEnv egS2 3 1 (10 * decUnit) egAuction rfl

theorem c3_witness :
    execStateFst egS1 (openPosition tfFalseEnv egS1 7 5 decUnit 9 (2 * decUnit)) = egS1 ∧
    openPosition tfFalseEnv egS1 7 5 decUnit 9 (2 * decUnit) = .error .transferFailed :=
  ⟨c3_revert_semantics_and_transfer_order.1 tfFalseEnv egS1 7 5 decUnit 9 (2 * decUnit)
     .transferFailed rfl,
   c3_revert_semantics_and_transfer_order.2.2.2.2.2.2 tfFalseEnv egS1 7 5 decUnit 9
     (2 * decUnit) (by decide) (by decide) (by decide) rfl⟩

theorem c5_witness :
    ∃ relativePrice,
      queryPrice egEnv egS1 5 9 = .ok relativePrice ∧
      egOpen.2 = egS1.currentpositionIndex ∧
      0 < 4 * decUnit * relativePrice / decUnit * decUnit / (2 * decUnit) ∧
      queryPosition egOpen.1 egOpen.2 =
        { idx := egOpen.2, owner := 7, collateralToken := 5,
          collateralAmount := 4 * decUnit, assetToken := 9,
          assetAmount := 4 * decUnit * relativePrice / decUnit * decUnit / (2 * decUnit) } :=
  c5_openPosition_mint_formula egEnv egS1 7 5 (4 * decUnit) 9 (2 * decUnit) egOpen rfl

theorem c7_witness :
    ((egS2.idxPositionMap 1).owner = 7 ∧
     0 < (egS2.idxPositionMap 1).assetAmount ∧
     0 < (egS2.idxPositionMap 1).collateralAmount ∧
     queryPosition egS3 1 = Position.empty ∧
     queryPositionIndex egS3 7 (egS2.idxPositionMap 1).collateralToken
       (egS2.idxPositionMap 1).assetToken = 0 ∧
     ((1 : Nat) ≠ 0 →
       queryPositionIndex egS3 7 (egS2.idxPositionMap 1).collateralToken
         (egS2.idxPositionMap 1).assetToken ≠ 1)) ∧
    (∀ o c a, queryPositionIndex egAuction.1 o c a = queryPositionIndex egS2 o c a) :=
  ⟨c7_close_clears_secondary_auction_does_not.1 egEnv egS2 7 1 egS3 rfl,
   c7_close_clears_secondary_auction_does_not.2 highEnv egS2 3 1 (10 * decUnit) egAuction rfl⟩

/-- C3 counterexample: with asset `11` unregistered and a failing
`transferFrom`, `openPosition` reports `TransferFailed`, not
`NotRegistered`: the external transfer is initiated before the
asset-registration validation, contradicting the claim that all
precondition validation is staged before any external token transfer. -/
theorem c3_counterexample :
    (egS1.assetConfigMap 11).token ≠ 11 ∧
    openPosition tfFalseEnv egS1 7 5 decUnit 11 (2 * decUnit) = .error .transferFailed := by
  constructor
  · decide
  · rfl

theorem c6_witness :
    registerAsset egS1 9 0 (2 * decUnit) = .error .alreadyRegistered ∧
    (∃ s1, registerMigration egS2 9 (3 * decUnit) = .ok s1 ∧
      (s1.assetConfigMap 9).minCollateralRatio = decUnit ∧
      (s1.assetConfigMap 9).endPrice = 3 * decUnit) ∧
    openPosition egEnv egS4 7 5 decUnit 9 (2 * decUnit) = .error .deprecated ∧
    mint egEnv egS4 7 1 9 decUnit = .error .deprecated ∧
    deposit egEnv egS4 7 1 5 decUnit = .error .deprecated := by
  refine ⟨c6_register_migrate_deprecate.1 egS1 9 0 (2 * decUnit) (by decide),
          c6_register_migrate_deprecate.2.1 egS2 9 (3 * decUnit) (by decide),
          c6_register_migrate_deprecate.2.2.1 egEnv egS4 7 5 decUnit 9 (2 * decUnit)
            (by decide) (by decide) (by decide) (by decide) (by decide) (by decide),
          ?_, ?_⟩
  · have h := c6_register_migrate_deprecate.2.2.2.1 egEnv egS4 7 1 decUnit
      (by decide) (by decide) (by decide) (by decide)
    simpa using h
  · have h := c6_register_migrate_deprecate.2.2.2.2 egEnv egS4 7 1 decUnit
      (by decide) (by decide) (by decide) (by decide) (by decide)
    simpa using h

theorem c10_witness :
    egS2.protocolFeeRate = 0 ∧
    (withdraw egEnv egS2 7 1 5 decUnit ≠ .ok emptyState) ∧
    (∃ s0, initializeMint 4 5 0 50 = .ok s0) :=
  ⟨by decide,
   c10_withdraw_reverts_when_fee_rate_zero.1 egEnv egS2 7 1 5 decUnit emptyState (by decide),
   c10_withdraw_reverts_when_fee_rate_zero.2 4 5 50⟩

/-- C4: `queryInvalidPositioins` allocates zero-length output arrays and
then writes matches into them, so with a nonzero price it reverts with an
out-of-bounds panic as soon as one undercollateralized position of the
asset exists (here position 1 at price `4` with ratio `1 < 2`), instead of
returning that position; with a zero oracle price it returns the empty
result. -/
theorem c4_queryInvalid_reverts_on_match :
    queryInvalidPositioins highEnv egS2 9 = .error .outOfBounds ∧
    0 < (highEnv.oraclePrice 9).1 ∧
    (egS2.idxPositionMap 1).assetToken = 9 ∧
    isValidPostion egS2 (egS2.idxPositionMap 1) (highEnv.oraclePrice 9).1 = .ok false ∧
    (highEnv.oraclePrice 10).1 = 0 ∧
    queryInvalidPositioins highEnv egS2 10 = .ok [] :=
  ⟨rfl, by decide, by decide, rfl, by decide, rfl⟩

/-- C9: the residual-collateral `transfer` to the position owner in the
auction branch where the debt reaches zero ignores the token's boolean
result: with an environment whose `transfer` to the owner returns `false`,
the auction still succeeds, removes the position, and pays the liquidator. -/
theorem c9_residual_transfer_ignored :
    residualFailEnv.transferOk 5 7 decUnit = false ∧
    auction residualFailEnv egS2 3 1 decUnit = .ok egResidualAuction ∧
    egResidualAuction.1.idxPositionMap 1 = Position.empty ∧
    egResidualAuction.2.liquidateAssetAmount = decUnit ∧
    egResidualAuction.2.returnCollateralAmount = 3 * decUnit :=
  ⟨by decide, rfl, by decide, by decide, by decide⟩

end Kalata
namespace Kalata

/-! List bookkeeping for the `removePosition` loop. -/

lemma getD_append_lt {α : Type} (l1 l2 : List α) (d : α) (i : Nat) (h : i < l1.length) :
    (l1 ++ l2).getD i d = l1.getD i d := by
  induction l1 generalizing i with
  | nil => simp at h
  | cons a t ih =>
    cases i with
    | zero => rfl
    | succ n =>
      simp only [List.cons_append, List.getD_cons_succ]
      exact ih n (by simpa using h)

lemma getD_append_len {α : Type} (l1 : List α) (a d : α) (l2 : List α) :
    (l1 ++ a :: l2).getD l1.length d = a := by
  induction l1 with
  | nil => rfl
  | cons b t ih => simpa using ih

lemma set_append_len {α : Type} (l1 : List α) (a v : α) (l2 : List α) :
    (l1 ++ a :: l2).set l1.length v = l1 ++ v :: l2 := by
  induction l1 with
  | nil => rfl
  | cons b t ih => simpa using ih

lemma getD_mem_or {α : Type} (l : List α) (i : Nat) (d : α) :
    l.getD i d ∈ l ∨ l.getD i d = d := by
  by_cases h : i < l.length
  · rw [List.getD_eq_getElem l d h]
    exact .inl (List.getElem_mem h)
  · exact .inr (List.getD_eq_default l d (le_of_not_lt h))

lemma removeLoop_append (len p : Nat) (xs ys : List Nat) (arr : List Nat) :
    removeLoop len p (xs ++ ys) arr = removeLoop len p ys (removeLoop len p xs arr) := by
  induction xs generalizing arr with
  | nil => rfl
  | cons i t ih =>
    simp only [List.cons_append, removeLoop]
    split <;> exact ih _

lemma removeLoop_no_match (len p : Nat) (xs : List Nat) (arr : List Nat)
    (h : ∀ i ∈ xs, arr.getD i 0 ≠ p) : removeLoop len p xs arr = arr := by
  induction xs with
  | nil => rfl
  | cons i t ih =>
    simp only [removeLoop]
    rw [if_neg (h i (by simp))]
    exact ih fun j hj => h j (by simp [hj])

lemma range_no_match_of_init (l1 : List Nat) (p : Nat) (hnl1 : p ∉ l1)
    (l2 : List Nat) :
    ∀ i ∈ List.range l1.length, (l1 ++ l2).getD i 0 ≠ p := by
  intro i hi
  rw [List.mem_range] at hi
  rw [getD_append_lt _ _ _ _ hi, List.getD_eq_getElem _ _ hi]
  intro hc
  exact hnl1 (hc ▸ List.getElem_mem hi)

lemma no_match_of_not_mem (arr : List Nat) (p : Nat) (hp : p ≠ 0) (hmem : p ∉ arr) :
    ∀ i ∈ List.range arr.length, arr.getD i 0 ≠ p := by
  intro i _
  rcases getD_mem_or arr i 0 with h | h
  · exact fun hc => hmem (hc ▸ h)
  · rw [h]
    exact fun hc => hp hc.symm

lemma removePositionArray_eq_last (l1 : List Nat) (p : Nat) (hnl1 : p ∉ l1) :
    removePositionArray (l1 ++ [p]) p = l1 ++ [0] := by
  unfold removePositionArray
  have hlen : (l1 ++ [p]).length = l1.length + 1 := by simp
  rw [hlen, List.range_succ, removeLoop_append,
    removeLoop_no_match _ _ _ _ (range_no_match_of_init l1 p hnl1 [p])]
  simp only [removeLoop]
  rw [if_pos (getD_append_len l1 p 0 [])]
  rw [if_neg (by omega : ¬ (l1.length ≠ l1.length + 1 - 1))]
  simp only [Nat.add_sub_cancel]
  rw [set_append_len l1 p 0 []]

lemma removePositionArray_eq_mid (l1 l2' : List Nat) (w p : Nat) (hp : p ≠ 0)
    (hnl1 : p ∉ l1) (hw : w ≠ p) (hnl2 : p ∉ l2') :
    removePositionArray (l1 ++ p :: (l2' ++ [w])) p = l1 ++ w :: (l2' ++ [0]) := by
  unfold removePositionArray
  have hlen : (l1 ++ p :: (l2' ++ [w])).length = (l1.length + 1) + (l2'.length + 1) := by
    simp only [List.length_append, List.length_cons, List.length_nil]
    omega
  rw [hlen, List.range_add, List.range_succ, List.append_assoc, removeLoop_append,
    removeLoop_no_match _ _ _ _ (range_no_match_of_init l1 p hnl1 (p :: (l2' ++ [w])))]
  rw [show ([l1.length] ++ List.map (fun x => l1.length + 1 + x) (List.range (l2'.length + 1)))
      = l1.length :: List.map (fun x => l1.length + 1 + x) (List.range (l2'.length + 1)) from rfl]
  simp only [removeLoop]
  rw [if_pos (getD_append_len l1 p 0 (l2' ++ [w]))]
  rw [if_pos (by omega : l1.length ≠ l1.length + 1 + (l2'.length + 1) - 1)]
  have hidx : l1.length + 1 + (l2'.length + 1) - 1 = (l1 ++ p :: l2').length := by
    simp only [List.length_append, List.length_cons]
    omega
  rw [hidx]
  rw [show l1 ++ p :: (l2' ++ [w]) = (l1 ++ p :: l2') ++ [w] by simp]
  rw [getD_append_len (l1 ++ p :: l2') w 0 []]
  rw [show ((l1 ++ p :: l2') ++ [w]).set l1.length w
      = (l1 ++ p :: (l2' ++ [w])).set l1.length w by simp]
  rw [set_append_len l1 p w (l2' ++ [w])]
  rw [show l1 ++ w :: (l2' ++ [w]) = (l1 ++ w :: l2') ++ [w] by simp]
  rw [show (l1 ++ p :: l2').length = (l1 ++ w :: l2').length by simp]
  rw [set_append_len (l1 ++ w :: l2') w 0 []]
  rw [removeLoop_no_match]
  · simp
  · intro i _
    rcases getD_mem_or ((l1 ++ w :: l2') ++ [0]) i 0 with h | h
    · intro hc
      rw [hc] at h
      simp only [List.mem_append, List.mem_cons, List.mem_singleton] at h
      rcases h with (h | h | h) | h
      · exact hnl1 h
      · exact hw h.symm
      · exact hnl2 h
      · rcases h with h | h
        · exact hp h
        · exact absurd h (List.not_mem_nil p)
    · rw [h]
      exact fun hc => hp hc.symm


lemma removePositionArray_spec (arr : List Nat) (p : Nat) (hp : p ≠ 0)
    (hcnt : arr.count p ≤ 1) :
    (removePositionArray arr p).length = arr.length ∧
    (∀ j, j ≠ 0 →
      (removePositionArray arr p).count j = if j = p then 0 else arr.count j) ∧
    (∀ x ∈ removePositionArray arr p, x ∈ arr ∨ x = 0) := by
  by_cases hmem : p ∈ arr
  case neg =>
    have hid : removePositionArray arr p = arr := by
      unfold removePositionArray
      exact removeLoop_no_match _ _ _ _ (no_match_of_not_mem arr p hp hmem)
    rw [hid]
    refine ⟨rfl, ?_, fun x hx => .inl hx⟩
    intro j hj
    split
    next hjp => rw [hjp]; exact List.count_eq_zero.mpr hmem
    next => rfl
  case pos =>
    obtain ⟨l1, l2, rfl⟩ := List.append_of_mem hmem
    have hl1 : l1.count p = 0 := by
      rw [List.count_eq_zero]
      intro hc
      have h1 := List.one_le_count_iff.mpr hc
      have h2 : (l1 ++ p :: l2).count p = l1.count p + (p :: l2).count p :=
        List.count_append p l1 (p :: l2)
      have h3 : (p :: l2).count p = l2.count p + 1 := by simp [List.count_cons]
      omega
    have hl2 : l2.count p = 0 := by
      rw [List.count_eq_zero]
      intro hc
      have h1 := List.one_le_count_iff.mpr hc
      have h2 : (l1 ++ p :: l2).count p = l1.count p + (p :: l2).count p :=
        List.count_append p l1 (p :: l2)
      have h3 : (p :: l2).count p = l2.count p + 1 := by simp [List.count_cons]
      omega
    have hnl1 : p ∉ l1 := List.count_eq_zero.mp hl1
    have hnl2 : p ∉ l2 := List.count_eq_zero.mp hl2
    rcases List.eq_nil_or_concat l2 with rfl | ⟨l2', w, hl2eq⟩
    · rw [removePositionArray_eq_last l1 p hnl1]
      refine ⟨by simp, ?_, ?_⟩
      · intro j hj
        by_cases hjp : j = p
        · subst hjp
          rw [if_pos rfl]
          simp only [List.count_append, List.count_cons, List.count_nil, beq_iff_eq]
          have hl1j := hl1
          split_ifs <;> omega
        · rw [if_neg hjp]
          simp only [List.count_append, List.count_cons, List.count_nil, beq_iff_eq]
          split_ifs <;> omega
      · intro x hx
        rcases List.mem_append.mp hx with h | h
        · exact .inl (List.mem_append.mpr (.inl h))
        · exact .inr (List.mem_singleton.mp h)
    · subst hl2eq
      rw [List.concat_eq_append] at hnl2 hl2 hcnt ⊢
      have hwp : w ≠ p := by
        intro hc
        apply hnl2
        rw [hc]
        simp
      have hnl2' : p ∉ l2' := fun hc => hnl2 (List.mem_append_left _ hc)
      have hl2c : l2'.count p = 0 := List.count_eq_zero.mpr hnl2'
      rw [removePositionArray_eq_mid l1 l2' w p hp hnl1 hwp hnl2']
      refine ⟨by simp, ?_, ?_⟩
      · intro j hj
        by_cases hjp : j = p
        · subst hjp
          rw [if_pos rfl]
          simp only [List.count_append, List.count_cons, List.count_nil, beq_iff_eq]
          split_ifs <;> omega
        · rw [if_neg hjp]
          simp only [List.count_append, List.count_cons, List.count_nil, beq_iff_eq]
          split_ifs <;> omega
      · intro x hx
        simp only [List.mem_append, List.mem_cons, List.mem_singleton] at hx
        rcases hx with h | h | h | h
        · exact .inl (List.mem_append.mpr (.inl h))
        · subst h
          exact .inl (by simp)
        · exact .inl (List.mem_append.mpr (.inr (List.mem_cons.mpr
            (.inr (List.mem_append.mpr (.inl h))))))
        · rcases h with h | h
          · exact .inr h
          · exact absurd h (List.not_mem_nil x)

end Kalata
namespace Kalata

lemma position_ne_empty_of_collateralToken {p : Position} (h : p.collateralToken ≠ 0) :
    p ≠ Position.empty := fun hc => h (by rw [hc]; rfl)

lemma position_ne_empty_of_assetToken {p : Position} (h : p.assetToken ≠ 0) :
    p ≠ Position.empty := fun hc => h (by rw [hc]; rfl)

lemma position_ne_empty_of_collateralAmount {p : Position} (h : p.collateralAmount ≠ 0) :
    p ≠ Position.empty := fun hc => h (by rw [hc]; rfl)

lemma position_ne_empty_of_assetAmount {p : Position} (h : p.assetAmount ≠ 0) :
    p ≠ Position.empty := fun hc => h (by rw [hc]; rfl)

lemma ledgerInv_mem {s : MintState} (hInv : LedgerInv s) {i : Nat}
    (hne : s.idxPositionMap i ≠ Position.empty) :
    i ≠ 0 ∧ i ∈ s.postionIdxArray ∧ i < s.currentpositionIndex := by
  have hi0 : i ≠ 0 := fun h => hne (h ▸ hInv.2.1)
  have hcnt := hInv.2.2.1 i hi0
  rw [if_pos hne] at hcnt
  have hmem : i ∈ s.postionIdxArray := List.one_le_count_iff.mp (by omega)
  exact ⟨hi0, hmem, hInv.2.2.2 i hmem⟩

lemma inv_savePosition_existing {s : MintState} (hInv : LedgerInv s) (i : Nat)
    (pos : Position) (hprev : s.idxPositionMap i ≠ Position.empty)
    (hpos : pos ≠ Position.empty) : LedgerInv (savePosition s i pos) := by
  obtain ⟨hi0, hmem, hlt⟩ := ledgerInv_mem hInv hprev
  unfold savePosition
  rw [if_pos hmem]
  refine ⟨hInv.1, ?_, ?_, hInv.2.2.2⟩
  · dsimp only
    rw [if_neg fun h => hi0 h.symm]
    exact hInv.2.1
  · intro j hj
    dsimp only
    by_cases hji : j = i
    · subst hji
      have := hInv.2.2.1 j hj
      rw [if_pos hprev] at this
      simp [this, hpos]
    · have := hInv.2.2.1 j hj
      simpa [hji] using this

lemma inv_removePosition {s : MintState} (hInv : LedgerInv s) (i : Nat) (hi : i ≠ 0) :
    LedgerInv (removePosition s i) := by
  have hcnt : s.postionIdxArray.count i ≤ 1 := by
    have := hInv.2.2.1 i hi
    split at this <;> omega
  obtain ⟨hlen, hcounts, hsub⟩ := removePositionArray_spec s.postionIdxArray i hi hcnt
  unfold removePosition
  refine ⟨hInv.1, ?_, ?_, ?_⟩
  · dsimp only
    rw [if_neg fun h => hi h.symm]
    exact hInv.2.1
  · intro j hj
    dsimp only
    rw [hcounts j hj]
    by_cases hji : j = i
    · subst hji
      simp
    · have := hInv.2.2.1 j hj
      simpa [hji] using this
  · intro x hx
    dsimp only at hx ⊢
    rcases hsub x hx with h | h
    · exact hInv.2.2.2 x h
    · rw [h]
      have h1 := hInv.1
      omega

lemma inv_initializeMint {collector baseToken : Addr} {protocolFeeRate priceExpireTime : Nat}
    {s0 : MintState}
    (h : initializeMint collector baseToken protocolFeeRate priceExpireTime = .ok s0) :
    LedgerInv s0 := by
  unfold initializeMint at h
  split at h
  · cases h
    refine ⟨Nat.le_refl 1, rfl, ?_, by simp⟩
    intro i _
    simp
  · exact Except.noConfusion h

lemma inv_saveAssetConfig {s : MintState} (hInv : LedgerInv s) (a : Addr) (c : AssetConfig) :
    LedgerInv (saveAssetConfig s a c) := hInv

lemma inv_saveAsset {s s1 : MintState} {a : Addr} {d m : Nat}
    (h : saveAsset s a d m = .ok s1) (hInv : LedgerInv s) : LedgerInv s1 := by
  unfold saveAsset at h
  repeat' split at h
  all_goals try exact Except.noConfusion h
  cases h
  exact inv_saveAssetConfig hInv _ _

lemma inv_registerAsset {s s1 : MintState} {a : Addr} {d m : Nat}
    (h : registerAsset s a d m = .ok s1) (hInv : LedgerInv s) : LedgerInv s1 := by
  unfold registerAsset at h
  split at h
  · exact inv_saveAsset h hInv
  · exact Except.noConfusion h

lemma inv_registerMigration {s s1 : MintState} {a : Addr} {e : Nat}
    (h : registerMigration s a e = .ok s1) (hInv : LedgerInv s) : LedgerInv s1 := by
  unfold registerMigration at h
  split at h
  · exact Except.noConfusion h
  · cases h
    exact inv_saveAssetConfig hInv _ _

lemma inv_updateConfig {s : MintState} (hInv : LedgerInv s) (c b : Addr) (r e : Nat) :
    LedgerInv (updateConfig s c b r e) := hInv

end Kalata
namespace Kalata

lemma isValidPostion_ok_assetAmount_ne_zero {s : MintState} {p : Position} {ap : Nat}
    {v : Bool} (h : isValidPostion s p ap = .ok v) : p.assetAmount ≠ 0 := by
  unfold isValidPostion at h
  split at h
  · exact Except.noConfusion h
  next m heq =>
    split at h
    · exact Except.noConfusion h
    next q heq2 =>
      obtain ⟨hm0, _⟩ := divideDecimal_ok heq2
      have hmv := multiplyDecimal_ok heq
      intro hc
      rw [hc] at hmv
      simp at hmv
      exact hm0 hmv

set_option maxHeartbeats 1000000 in
lemma inv_openPosition {env : Env} {s : MintState} {sender ct : Addr} {ca : Nat} {at_ : Addr}
    {r : Nat} {out : MintState × Nat}
    (h : openPosition env s sender ct ca at_ r = .ok out) (hInv : LedgerInv s) :
    LedgerInv out.1 := by
  unfold openPosition at h
  simp only [] at h
  repeat' split at h
  all_goals try exact Except.noConfusion h
  rename ¬¬0 < _ => hm0
  cases h
  have hcap : s.currentpositionIndex ∉ s.postionIdxArray :=
    fun hc => absurd (hInv.2.2.2 _ hc) (by omega)
  have h1 := hInv.1
  refine ⟨by dsimp only; omega, ?_, ?_, ?_⟩
  · dsimp only
    simp only [savePosition]
    try dsimp only
    rw [if_neg (by omega : ¬ (0 : Nat) = s.currentpositionIndex)]
    exact hInv.2.1
  · intro j hj
    dsimp only
    simp only [savePosition]
    rw [if_neg hcap]
    try dsimp only
    by_cases hji : j = s.currentpositionIndex
    · subst hji
      have hc0 : s.postionIdxArray.count s.currentpositionIndex = 0 :=
        List.count_eq_zero.mpr hcap
      simp only [List.count_append, List.count_cons, List.count_nil, beq_iff_eq, hc0,
        if_pos rfl, if_true]
      split
      · omega
      next hfalse =>
        rw [not_not] at hfalse
        have hav := congrArg Position.assetAmount hfalse
        have hmv := not_not.mp hm0
        simp [Position.empty] at hav
        omega
    · have hcnt := hInv.2.2.1 j hj
      simp only [List.count_append, List.count_cons, List.count_nil, beq_iff_eq,
        if_neg hji, if_neg (fun hc : s.currentpositionIndex = j => hji hc.symm)]
      simpa using hcnt
  · intro x hx
    dsimp only at hx ⊢
    simp only [savePosition] at hx ⊢
    try dsimp only
    rw [if_neg hcap] at hx
    rcases List.mem_append.mp hx with hx | hx
    · have := hInv.2.2.2 x hx
      omega
    · have : x = s.currentpositionIndex := List.mem_singleton.mp hx
      omega

set_option maxHeartbeats 1000000 in
lemma inv_deposit {env : Env} {s : MintState} {sender : Addr} {pi : Nat} {ct : Addr}
    {ca : Nat} {s1 : MintState}
    (h : deposit env s sender pi ct ca = .ok s1) (hInv : LedgerInv s) : LedgerInv s1 := by
  unfold deposit at h
  simp only [] at h
  repeat' split at h
  all_goals try exact Except.noConfusion h
  rename ¬ ct = 0 => hct0
  rename ¬¬(_ ∧ _) => hcol
  rw [not_not] at hcol
  cases h
  have hprev : s.idxPositionMap pi ≠ Position.empty :=
    position_ne_empty_of_collateralToken (by rw [hcol.1]; exact hct0)
  exact inv_savePosition_existing hInv pi _ hprev
    (position_ne_empty_of_collateralToken (by dsimp only; rw [hcol.1]; exact hct0))

set_option maxHeartbeats 1000000 in
lemma inv_withdraw {env : Env} {s : MintState} {sender : Addr} {pi : Nat} {ct : Addr}
    {wa : Nat} {s1 : MintState}
    (h : withdraw env s sender pi ct wa = .ok s1) (hInv : LedgerInv s) : LedgerInv s1 := by
  unfold withdraw at h
  simp only [] at h
  repeat' split at h
  all_goals try exact Except.noConfusion h
  all_goals (
    rename ¬ ct = 0 => hct0
    rename ¬¬(_ ∧ _) => hcol
    rw [not_not] at hcol
    have hprev : s.idxPositionMap pi ≠ Position.empty :=
      position_ne_empty_of_collateralToken (by rw [hcol.1]; exact hct0)
    cases h)
  case _ hboth =>
    exact inv_removePosition hInv pi (ledgerInv_mem hInv hprev).1
  case _ hnboth =>
    refine inv_savePosition_existing hInv pi _ hprev ?_
    intro hc
    apply hnboth
    constructor
    · have := congrArg Position.collateralAmount hc
      simpa using this
    · have := congrArg Position.assetAmount hc
      simpa using this

end Kalata

namespace Kalata

set_option maxHeartbeats 1000000 in
lemma inv_mint {env : Env} {s : MintState} {sender : Addr} {pi : Nat} {at_ : Addr}
    {amt : Nat} {s1 : MintState}
    (h : mint env s sender pi at_ amt = .ok s1) (hInv : LedgerInv s) : LedgerInv s1 := by
  unfold mint at h
  simp only [] at h
  repeat' split at h
  all_goals try exact Except.noConfusion h
  rename ¬ at_ = 0 => hat0
  rename ¬¬(_ ∧ _) => hass
  rw [not_not] at hass
  cases h
  have hprev : s.idxPositionMap pi ≠ Position.empty :=
    position_ne_empty_of_assetToken (by rw [← hass.1]; exact hat0)
  exact inv_savePosition_existing hInv pi _ hprev
    (position_ne_empty_of_assetToken (by dsimp only; rw [← hass.1]; exact hat0))

set_option maxHeartbeats 1000000 in
lemma inv_closePosition {env : Env} {s : MintState} {sender : Addr} {pi : Nat}
    {s1 : MintState}
    (h : closePosition env s sender pi = .ok s1) (hInv : LedgerInv s) : LedgerInv s1 := by
  unfold closePosition at h
  simp only [] at h
  repeat' split at h
  all_goals try exact Except.noConfusion h
  rename ¬¬(_ ∧ _) => hcond
  rw [not_not] at hcond
  cases h
  have hprev : s.idxPositionMap pi ≠ Position.empty :=
    position_ne_empty_of_assetToken hcond.2.1
  exact inv_removePosition hInv pi (ledgerInv_mem hInv hprev).1

set_option maxHeartbeats 1000000 in
lemma inv_auction {env : Env} {s : MintState} {sender : Addr} {pi liq : Nat}
    {out : MintState × AuctionResult}
    (h : auction env s sender pi liq = .ok out) (hInv : LedgerInv s) : LedgerInv out.1 := by
  unfold auction at h
  simp only [] at h
  repeat' split at h
  all_goals try exact Except.noConfusion h
  all_goals (
    rename isValidPostion _ _ _ = _ => hval
    have hprev : s.idxPositionMap pi ≠ Position.empty :=
      position_ne_empty_of_assetAmount (isValidPostion_ok_assetAmount_ne_zero hval)
    cases h)
  all_goals try exact inv_removePosition hInv pi (ledgerInv_mem hInv hprev).1
  all_goals (
    rename ¬ _ = 0 => ha0
    clear ha0
    rename ¬ _ = 0 => hc0
    obtain ⟨hpi0, hmem, hlt⟩ := ledgerInv_mem hInv hprev
    refine ⟨hInv.1, ?_, ?_, hInv.2.2.2⟩
    · dsimp only
      rw [if_neg fun hzero => hpi0 hzero.symm]
      exact hInv.2.1
    · intro j hj
      dsimp only
      by_cases hji : j = pi
      · subst hji
        have hcnt := hInv.2.2.1 j hj
        rw [if_pos hprev] at hcnt
        rw [if_pos rfl, hcnt]
        rw [if_pos (position_ne_empty_of_collateralAmount (by dsimp only; simpa using hc0))]
      · have hcnt := hInv.2.2.1 j hj
        rw [if_neg hji]
        exact hcnt)

end Kalata
namespace Kalata

lemma inv_step {s s1 : MintState} (h : Step s s1) (hInv : LedgerInv s) : LedgerInv s1 := by
  cases h with
  | stepOpen env sender ct ca at_ r out h => exact inv_openPosition h hInv
  | stepDeposit env sender pi ct ca h => exact inv_deposit h hInv
  | stepWithdraw env sender pi ct wa h => exact inv_withdraw h hInv
  | stepMint env sender pi at_ amt h => exact inv_mint h hInv
  | stepClose env sender pi h => exact inv_closePosition h hInv
  | stepAuction env sender pi liq out h => exact inv_auction h hInv
  | stepRegisterAsset a d m h => exact inv_registerAsset h hInv
  | stepUpdateAsset a d m h => exact inv_saveAsset h hInv
  | stepRegisterMigration a e h => exact inv_registerMigration h hInv
  | stepUpdateConfig c b r e h => exact h ▸ inv_updateConfig hInv c b r e

lemma inv_reachable {s : MintState} (h : Reachable s) : LedgerInv s := by
  obtain ⟨c, b, r, e, s0, h0, hrt⟩ := h
  induction hrt with
  | refl => exact inv_initializeMint h0
  | tail _ hstep ih => exact inv_step hstep ih

lemma queryFillLoop_spec (m : Nat → Position) (keep : Position → Bool) :
    ∀ (idxs : List Nat) (pre : List Position) (k : Nat),
      ((idxs.map m).filter keep).length ≤ k →
      queryFillLoop m keep idxs (pre ++ List.replicate k Position.empty) pre.length
        = .ok (pre ++ ((idxs.map m).filter keep) ++
            List.replicate (k - ((idxs.map m).filter keep).length) Position.empty) := by
  intro idxs
  induction idxs with
  | nil =>
    intro pre k hk
    simp [queryFillLoop]
  | cons i t ih =>
    intro pre k hk
    simp only [List.map_cons, List.filter_cons] at hk ⊢
    by_cases hkeep : keep (m i)
    · rw [if_pos hkeep] at hk ⊢
      simp only [queryFillLoop, hkeep, if_pos]
      obtain ⟨k', rfl⟩ : ∃ k', k = k' + 1 :=
        ⟨k - 1, by simp [List.length_cons] at hk; omega⟩
      rw [List.replicate_succ]
      unfold setChecked
      rw [if_pos (by simp)]
      rw [set_append_len pre Position.empty (m i) (List.replicate k' Position.empty)]
      rw [show pre ++ (m i) :: List.replicate k' Position.empty
          = (pre ++ [m i]) ++ List.replicate k' Position.empty by simp]
      rw [show pre.length + 1 = (pre ++ [m i]).length by simp]
      dsimp only
      rw [ih (pre ++ [m i]) k' (by simp [List.length_cons] at hk; omega)]
      simp [List.length_cons]
    · rw [if_neg hkeep] at hk ⊢
      simp only [queryFillLoop, hkeep, if_neg]
      rw [if_neg (by simp [hkeep])]
      exact ih pre k hk

end Kalata
namespace Kalata

lemma queryAllPositions_spec (s : MintState) (owner : Addr) (h : owner ≠ 0) :
    queryAllPositions s owner = .ok (
      ((s.postionIdxArray.map s.idxPositionMap).filter (fun q => decide (q.owner = owner))) ++
      List.replicate (s.postionIdxArray.length -
        ((s.postionIdxArray.map s.idxPositionMap).filter
          (fun q => decide (q.owner = owner))).length) Position.empty) := by
  unfold queryAllPositions
  rw [if_neg h]
  have hle : ((s.postionIdxArray.map s.idxPositionMap).filter
      (fun q => decide (q.owner = owner))).length ≤ s.postionIdxArray.length :=
    le_trans (List.length_filter_le _ _) (by simp)
  have := queryFillLoop_spec s.idxPositionMap (fun q => decide (q.owner = owner))
    s.postionIdxArray [] s.postionIdxArray.length hle
  simpa using this

lemma queryPositions_spec (s : MintState) (owner assetToken : Addr) :
    queryPositions s owner assetToken = .ok (
      ((s.postionIdxArray.map s.idxPositionMap).filter
        (fun q => decide ((q.owner = owner ∨ owner = 0) ∧
          (q.assetToken = assetToken ∨ assetToken = 0)))) ++
      List.replicate (s.postionIdxArray.length -
        ((s.postionIdxArray.map s.idxPositionMap).filter
          (fun q => decide ((q.owner = owner ∨ owner = 0) ∧
            (q.assetToken = assetToken ∨ assetToken = 0)))).length) Position.empty) := by
  unfold queryPositions
  have hle : ((s.postionIdxArray.map s.idxPositionMap).filter
      (fun q => decide ((q.owner = owner ∨ owner = 0) ∧
        (q.assetToken = assetToken ∨ assetToken = 0)))).length
      ≤ s.postionIdxArray.length :=
    le_trans (List.length_filter_le _ _) (by simp)
  have := queryFillLoop_spec s.idxPositionMap
    (fun q => decide ((q.owner = owner ∨ owner = 0) ∧
      (q.assetToken = assetToken ∨ assetToken = 0)))
    s.postionIdxArray [] s.postionIdxArray.length hle
  simpa using this

/-- C8 (amended): in every reachable ledger state the bookkeeping invariant
holds: the position counter is at least 1 and bounds every tracked index,
and every NONZERO index occurs in the enumeration array exactly once if a
position is stored under it and not at all otherwise — but zero sentinel
entries are not excluded, because `removePosition` zeroes the last slot
instead of truncating.  Under the invariant, `removePosition` deletes the
stored position and removes the index from the array's nonzero entries
while the array length stays the same; the enumeration queries return
exactly the matching stored positions, zero-padded to the array length. -/
theorem c8_ledger_invariant_remove_and_queries :
    (∀ s : MintState, Reachable s → LedgerInv s) ∧
    (∀ (s : MintState) (positionIndex : Nat), LedgerInv s → positionIndex ≠ 0 →
      (removePosition s positionIndex).idxPositionMap positionIndex = Position.empty ∧
      (removePosition s positionIndex).postionIdxArray.length
        = s.postionIdxArray.length ∧
      (∀ j, j ≠ 0 → (removePosition s positionIndex).postionIdxArray.count j =
        if j = positionIndex then 0 else s.postionIdxArray.count j)) ∧
    (∀ (s : MintState) (owner : Addr), owner ≠ 0 →
      queryAllPositions s owner = .ok (
        ((s.postionIdxArray.map s.idxPositionMap).filter
          (fun q => decide (q.owner = owner))) ++
        List.replicate (s.postionIdxArray.length -
          ((s.postionIdxArray.map s.idxPositionMap).filter
            (fun q => decide (q.owner = owner))).length) Position.empty)) ∧
    (∀ (s : MintState) (owner assetToken : Addr),
      queryPositions s owner assetToken = .ok (
        ((s.postionIdxArray.map s.idxPositionMap).filter
          (fun q => decide ((q.owner = owner ∨ owner = 0) ∧
            (q.assetToken = assetToken ∨ assetToken = 0)))) ++
        List.replicate (s.postionIdxArray.length -
          ((s.postionIdxArray.map s.idxPositionMap).filter
            (fun q => decide ((q.owner = owner ∨ owner = 0) ∧
              (q.assetToken = assetToken ∨ assetToken = 0)))).length) Position.empty)) := by
  refine ⟨fun s h => inv_reachable h, ?_, queryAllPositions_spec, queryPositions_spec⟩
  intro s positionIndex hInv hpi
  have hcnt : s.postionIdxArray.count positionIndex ≤ 1 := by
    have := hInv.2.2.1 positionIndex hpi
    split at this <;> omega
  obtain ⟨hlen, hcounts, _⟩ := removePositionArray_spec s.postionIdxArray positionIndex hpi hcnt
  exact ⟨by simp [removePosition], hlen, hcounts⟩

/-- C8 counterexample: the reachable state after open-then-close of
position 1 has `postionIdxArray = [0]` — a stale zero entry — while no
position is stored at all, so the live array does not contain exactly the
indices of the open positions with no zero entries. -/
theorem c8_counterexample :
    Reachable egS3 ∧ egS3.postionIdxArray = [0] ∧
    egS3.idxPositionMap 0 = Position.empty ∧ egS3.idxPositionMap 1 = Position.empty := by
  refine ⟨⟨4, 5, 0, 50, egS0, rfl, ?_⟩, by decide, by decide, by decide⟩
  have h1 : Step egS0 egS1 := Step.stepRegisterAsset 9 0 (2 * decUnit) rfl
  have h2 : Step egS1 egS2 := Step.stepOpen egEnv 7 5 (4 * decUnit) 9 (2 * decUnit) egOpen rfl
  have h3 : Step egS2 egS3 := Step.stepClose egEnv 7 1 rfl
  exact ((Relation.ReflTransGen.refl.tail h1).tail h2).tail h3

theorem c8_witness :
    LedgerInv egS2 ∧
    (removePosition egS2 1).idxPositionMap 1 = Position.empty ∧
    (removePosition egS2 1).postionIdxArray.count 1 = 0 ∧
    queryAllPositions egS2 7 = .ok [egS2.idxPositionMap 1] := by
  have hreach : Reachable egS2 := by
    refine ⟨4, 5, 0, 50, egS0, rfl, ?_⟩
    have h1 : Step egS0 egS1 := Step.stepRegisterAsset 9 0 (2 * decUnit) rfl
    have h2 : Step egS1 egS2 := Step.stepOpen egEnv 7 5 (4 * decUnit) 9 (2 * decUnit) egOpen rfl
    exact (Relation.ReflTransGen.refl.tail h1).tail h2
  have hinv := c8_ledger_invariant_remove_and_queries.1 egS2 hreach
  obtain ⟨hmap, hlen, hcnt⟩ :=
    c8_ledger_invariant_remove_and_queries.2.1 egS2 1 hinv (by decide)
  refine ⟨hinv, hmap, ?_, ?_⟩
  · have h1 := hcnt 1 (by decide)
    simpa using h1
  · have hq := c8_ledger_invariant_remove_and_queries.2.2.1 egS2 7 (by decide)
    exact hq.trans (congrArg Except.ok (by decide))

end Kalata
